import Mathlib

/-!
Verification development for the rune Lisp runtime core.

The development shallowly embeds, in Lean, the parts of the Rust source that
the specification claims talk about:

* the tagged 64-bit value word (src/object.rs, src/lisp_object/convert.rs):
  machine integers are modelled as mathematical integers together with an
  explicit two-complement wrap at 64 bits; the arithmetic shift right used by
  tag extraction is floor division by 256;
* the 56-bit data word with its mutability bit (src/object/data.rs);
* the tree-walking interpreter (src/interpreter.rs), as a fuel-indexed
  evaluator over an explicit heap of cons cells.  The cons-cell module, the
  symbol table and the list helper functions of the repository are not part
  of the given sources, so those operations are modelled from the
  specification text and marked as such in their doc comments.

Rust panics (for instance the expect call in var_set) are modelled as a
distinguished error constructor, and running out of fuel is a further
distinguished error, so that divergence is never confused with a result.
-/

set_option maxRecDepth 2048
set_option maxHeartbeats 1000000

namespace Rune

/-! ## Value word arithmetic (src/object.rs)

The word is a 64-bit integer.  `InnerObject.from_tag_bits` computes
`(bits << TAG_SIZE) | tag`; since the low `TAG_SIZE` bits of the shifted
value are zero and the tag is below 256, the bitwise or is addition.
`val` extracts an integer with an arithmetic shift right by `TAG_SIZE`,
which on a two-complement 64-bit word is floor division by 256. -/

def TAG_SIZE : Nat := 8

/-- Two-complement wrap of a mathematical integer into the i64 range. -/
def i64wrap (x : Int) : Int := (x + 2 ^ 63) % 2 ^ 64 - 2 ^ 63

/-- InnerObject.from_tag_bits from src/object.rs: shift the payload left by
the tag size (a wrapping shift on i64) and or in the tag. -/
def from_tag_bits (bits : Int) (tag : Nat) : Int :=
  i64wrap (bits * 2 ^ TAG_SIZE) + tag

/-- Tag of the word: its low byte, as in InnerObject.tag. -/
def wordTag (w : Int) : Nat := (w % 256).toNat

/-- Integer payload extraction of InnerObject.val for Tag.Int:
arithmetic shift right by the tag size. -/
def objValInt (w : Int) : Int := Int.fdiv w (2 ^ TAG_SIZE)

/-- Tag.Int has discriminant 1 in src/object.rs. -/
def tagInt : Nat := 1

/-- Construction of a value word from an i64, as in the From Int instance. -/
def intToObj (i : Int) : Int := from_tag_bits i tagInt

/-- Round trip of an i64 through the value word. -/
def intRoundTrip (i : Int) : Int := objValInt (intToObj i)

/-- Tag.True and Tag.Nil discriminants in src/object.rs. -/
def tagTrue : Nat := 3
def tagNil : Nat := 4

/-- InnerObject.from_tag: the word is just the tag. -/
def fromTag (tag : Nat) : Int := tag

/-- Construction of a value word from a bool (convert.rs From bool). -/
def boolToObj (b : Bool) : Int := fromTag (if b then tagTrue else tagNil)

/-- TryFrom LispObj for bool in convert.rs: Nil maps to false, every other
value to true. -/
def objToBool (w : Int) : Bool := if wordTag w = tagNil then false else true

/-- Round trip of a bool through the value word. -/
def boolRoundTrip (b : Bool) : Bool := objToBool (boolToObj b)

/-- Arena.alloc modelled as appending to a list of payloads; the returned
pointer is the index of the new slot.  Strings and floats are boxed this way
by InnerObject.from_type; the payload type is kept abstract because the code
never inspects it, it only boxes and unboxes it. -/
def arenaAlloc {α : Type} (h : List α) (v : α) : Nat × List α :=
  (h.length, h ++ [v])

/-- InnerObject.from_type for a pointer-bearing tag: allocate the payload and
pack the pointer with the tag. -/
def ptrToObj {α : Type} (h : List α) (v : α) (tag : Nat) : Int × List α :=
  let p := arenaAlloc h v
  (from_tag_bits (p.1 : Int) tag, p.2)

/-- InnerObject.val for a pointer-bearing tag: check the tag byte, shift the
pointer back out and dereference it. -/
def objToPtrVal {α : Type} (h : List α) (w : Int) (tag : Nat) : Option α :=
  if wordTag w = tag then h[(objValInt w).toNat]? else none

/-- Round trip of a boxed payload (string or float) through the value word
and the arena. -/
def ptrRoundTrip {α : Type} (h : List α) (v : α) (tag : Nat) : Option α :=
  let p := ptrToObj h v tag
  objToPtrVal p.2 p.1 tag

/-! ## The 56-bit data word with mutability bit (src/object/data.rs) -/

/-- Data.from_raw keeps the low 7 bytes of an i64: the value modulo 2 to the
56. -/
def dataFromRaw (x : Int) : Nat := (x % 2 ^ 56).toNat

/-- Data.into_raw reconstructs an i64 from the 7 stored bytes with an
arithmetic shift, which sign extends the 56-bit value. -/
def dataIntoRaw (d : Nat) : Int :=
  if d < 2 ^ 55 then (d : Int) else (d : Int) - 2 ^ 56

/-- Data.immut_bit_pattern: shift the pointer left by one (wrapping on i64)
and set the low bit. -/
def immutBitPattern (ptr : Nat) : Int := i64wrap (2 * ptr) + 1

/-- Data.mut_bit_pattern: shift the pointer left by one, low bit clear. -/
def mutBitPattern (ptr : Nat) : Int := i64wrap (2 * ptr)

/-- Data.from_ref: a data word built from a shared reference is marked
read-only. -/
def dataFromRef (ptr : Nat) : Nat := dataFromRaw (immutBitPattern ptr)

/-- Data.from_mut_ref: a data word built from a mutable reference keeps the
mutability bit clear. -/
def dataFromMutRef (ptr : Nat) : Nat := dataFromRaw (mutBitPattern ptr)

/-- Data.inner_mut: if the low bit of the reconstructed word is clear the
pointer (arithmetic shift right by one) is returned, otherwise the view is
refused. -/
def dataInnerMut (d : Nat) : Option Int :=
  if dataIntoRaw d % 2 = 0 then some (Int.fdiv (dataIntoRaw d) 2) else none

/-- Data.make_read_only: set the low bit of the stored bytes (a bitwise or
with 1, written arithmetically so that the parity is explicit). -/
def makeReadOnly (d : Nat) : Nat := if d % 2 = 1 then d else d + 1

/-! ## The interpreter (src/interpreter.rs)

The evaluator is embedded as a fuel-indexed function over an explicit state:
a heap of cons cells (each with a mutability flag, as constructed by the cons
macro of the repository), the global variable bindings (data.Environment.vars)
and the global function bindings consulted by resolve_callable.  The lexical
stack vars of the Interpreter struct is passed as a list of heap addresses
with the innermost binding first (the Rust code pushes to the back of a Vec
and searches it in reverse, which is the same order).

Rust panics are modelled by the panicked error; running out of fuel is the
distinct fuel error, so a theorem about a returned value can never hold
merely because evaluation was cut short.  Iteration over Lisp lists is
modelled eagerly: the element iterator of the missing cons module is
modelled from the spec (lists are cons chains ended by nil, improper lists
are detected during iteration) as the asList function. -/

/-- The runtime values of Value in src/object.rs.  Cons cells are referred
to by heap address; boxed payloads of floats and functions are referred to
by opaque index, since the interpreter never looks inside them. -/
inductive Obj where
  | intV (n : Int)
  | symV (s : String)
  | strV (s : String)
  | fltV (payload : Nat)
  | tru
  | nilV
  | consV (a : Nat)
  | lispFnV (i : Nat)
  | subrFnV (i : Nat)
  deriving DecidableEq, Repr

/-- The error Type enumeration used by Error.Type / Error.from_object. -/
inductive Ty where
  | symbolT
  | intT
  | floatT
  | stringT
  | nilT
  | trueT
  | consT
  | funcT
  | listT
  deriving DecidableEq, Repr

/-- Value.get_type from src/object.rs. -/
def typeOf : Obj → Ty
  | .intV _ => .intT
  | .symV _ => .symbolT
  | .strV _ => .stringT
  | .fltV _ => .floatT
  | .tru => .trueT
  | .nilV => .nilT
  | .consV _ => .consT
  | .lispFnV _ => .funcT
  | .subrFnV _ => .funcT

/-- Evaluation errors: the Error enum of the repository plus the two
modelling artefacts panicked (a Rust panic) and fuel (out of fuel). -/
inductive Err where
  | voidVariable (s : String)
  | argCount (expected actual : Nat)
  | typeErr (expected actual : Ty)
  | errMsg (s : String)
  | panicked (s : String)
  | fuel
  deriving DecidableEq, Repr

deriving instance DecidableEq for Except

/-- A heap cons cell: two value slots and the mutability flag set at
construction time (the cons macro of the repository allocates mutable
cells; reader-produced literals may be read-only). -/
structure Cell where
  car : Obj
  cdr : Obj
  mutFlag : Bool
  deriving DecidableEq, Repr

/-- The four callable kinds returned by resolve_callable
(src/interpreter.rs eval_call). -/
inductive Callable where
  | lispFn (i : Nat)
  | subrFn (i : Nat)
  | macroFn (i : Nat)
  | uncompiled (a : Nat)
  deriving DecidableEq, Repr

/-- The evaluation state: the arena-owned heap of cons cells, and the
global environment.  Modelled from the spec: the symbol table maps symbol
names to an optional global value and an optional function binding; symbols
are compared by identity after interning, which is name equality. -/
structure GState where
  heap : List Cell
  globals : List (String × Obj)
  funcs : List (String × Callable)
  deriving DecidableEq, Repr

/-- The external collaborators: bytecode execution of compiled functions,
native functions, and macro transforms.  Modelled from the spec: these are
outside the core and are passed in as opaque state transformers. -/
structure Collab where
  lispCall : Nat → List Obj → GState → (Except Err Obj) × GState
  subrCall : Nat → List Obj → GState → (Except Err Obj) × GState
  macroCall : Nat → List Obj → GState → (Except Err Obj) × GState

def getCell (st : GState) (a : Nat) : Option Cell := st.heap[a]?

/-- Arena allocation of a cons cell: append to the heap, return the new
address.  Previously returned addresses are never moved. -/
def alloc (st : GState) (c : Cell) : Nat × GState :=
  (st.heap.length, { st with heap := st.heap ++ [c] })

/-- Cons.set_cdr, modelled from the spec: mutation succeeds on a mutable
cell and fails on a read-only cell; the interpreter turns that failure into
the panic message of var_set. -/
def setCdrH (st : GState) (a : Nat) (v : Obj) : (Except Err Unit) × GState :=
  match st.heap[a]? with
  | some c =>
      if c.mutFlag then
        (.ok (), { st with heap := st.heap.set a { c with cdr := v } })
      else (.error (.panicked "env should be mutable"), st)
  | none => (.error (.panicked "dangling cons address"), st)

/-- Eager list iteration, modelled from the spec: a list is a cons chain
ended by nil; an improper tail is a type error; the internal bound of one
more than the heap size is enough for every acyclic chain, and a cyclic
chain (which would loop forever in the source) yields the fuel error. -/
def asListAux (st : GState) : Nat → Obj → Except Err (List Obj)
  | 0, _ => .error .fuel
  | _ + 1, .nilV => .ok []
  | n + 1, .consV a =>
      match st.heap[a]? with
      | some c =>
          match asListAux st n c.cdr with
          | .ok l => .ok (c.car :: l)
          | .error e => .error e
      | none => .error (.panicked "dangling cons address")
  | _ + 1, o => .error (.typeErr .listT (typeOf o))

def asList (st : GState) (o : Obj) : Except Err (List Obj) :=
  asListAux st (st.heap.length + 1) o

/-- Global variable lookup (data.Environment.vars.get). -/
def globalLookup (st : GState) (s : String) : Option Obj :=
  match st.globals.find? (fun p => p.1 == s) with
  | some p => some p.2
  | none => none

/-- Global variable insert (data.Environment.vars.insert): the newest
binding shadows any older one. -/
def globalInsert (st : GState) (s : String) (v : Obj) : GState :=
  { st with globals := (s, v) :: st.globals }

/-- Symbol.resolve_callable, modelled from the spec: the function binding
of the symbol, or none when unbound. -/
def resolveCallable (st : GState) (s : String) : Option Callable :=
  match st.funcs.find? (fun p => p.1 == s) with
  | some p => some p.2
  | none => none

/-- The lexical search shared by var_ref and var_set: walk the stack from
the innermost binding, returning the address of the first cell whose car is
the symbol.  A dangling address cannot arise in reachable states; it is
treated as a non-match. -/
def lexFindAddr (st : GState) (vars : List Nat) (s : String) : Option Nat :=
  match vars with
  | [] => none
  | a :: rest =>
      match st.heap[a]? with
      | some c => if c.car == Obj.symV s then some a else lexFindAddr st rest s
      | none => lexFindAddr st rest s

/-- The value of the innermost lexical binding of a symbol, when any. -/
def lexLookup (st : GState) (vars : List Nat) (s : String) : Option Obj :=
  match lexFindAddr st vars s with
  | some a =>
      match st.heap[a]? with
      | some c => some c.cdr
      | none => none
  | none => none

/-- The keyword test of var_ref: sym.name.starts_with of the colon
character, written on the character list so that it evaluates. -/
def isKeywordName (s : String) : Bool :=
  match s.data with
  | [] => false
  | c :: _ => c == Char.ofNat 58

/-- Interpreter.var_ref: keywords evaluate to themselves; otherwise the
lexical stack is searched innermost first, then the globals; unbound in
both is the void-variable error. -/
def varRef (st : GState) (vars : List Nat) (s : String) : Except Err Obj :=
  if isKeywordName s then .ok (.symV s)
  else
    match lexLookup st vars s with
    | some v => .ok v
    | none =>
        match globalLookup st s with
        | some v => .ok v
        | none => .error (.voidVariable s)

/-- Interpreter.var_set: mutate the innermost matching lexical binding cell
in place (panicking on a read-only cell), else insert a global binding; the
assigned value is returned. -/
def varSet (st : GState) (vars : List Nat) (s : String) (v : Obj) :
    (Except Err Obj) × GState :=
  match lexFindAddr st vars s with
  | some a =>
      match setCdrH st a v with
      | (.ok _, st2) => (.ok v, st2)
      | (.error e, st2) => (.error e, st2)
  | none => (.ok v, globalInsert st s v)

/-- fns.slice_into_list, modelled from the spec: build a fresh cons chain
over the slice, ending in the given tail (or nil). -/
def sliceIntoList : GState → List Obj → Option Obj → Obj × GState
  | st, [], tl => (match tl with | some t => t | none => .nilV, st)
  | st, x :: xs, tl =>
      match sliceIntoList st xs tl with
      | (r, st2) =>
          match alloc st2 { car := x, cdr := r, mutFlag := true } with
          | (a, st3) => (.consV a, st3)

/-- Interpreter.parse_closure_env on the already-iterated element list:
cons members are collected in order until the element t ends the
environment; anything else is malformed. -/
def parseClosureEnvList : List Obj → List Nat → Except Err (List Nat)
  | [], _ => .error (.errMsg "Closure env did not end with t")
  | x :: xs, acc =>
      match x with
      | .consV a => parseClosureEnvList xs (acc ++ [a])
      | .tru => .ok acc
      | _ => .error (.errMsg "Invalid closure environment member")

def parseClosureEnv (st : GState) (o : Obj) : Except Err (List Nat) :=
  match asList st o with
  | .ok l => parseClosureEnvList l []
  | .error e => .error e

/-- The TryFrom Symbol conversion: a type error on anything that is not a
symbol. -/
def toSym : Obj → Except Err String
  | .symV s => .ok s
  | o => .error (.typeErr .symbolT (typeOf o))

/-- Interpreter.parse_arg_list on the element list: a state machine
switching from required to optional at the &optional marker; the &rest
marker takes the single following name, and anything after that name is
malformed. -/
def parseArgItems :
    List Obj → List String → List String → Bool →
    Except Err (List String × List String × Option String)
  | [], req, opt, _ => .ok (req, opt, none)
  | x :: xs, req, opt, inOpt =>
      match toSym x with
      | .error e => .error e
      | .ok s =>
          if s = "&optional" then parseArgItems xs req opt true
          else if s = "&rest" then
            match xs with
            | [] => .ok (req, opt, none)
            | r :: rest =>
                match toSym r with
                | .error e => .error e
                | .ok rs =>
                    if rest.isEmpty then .ok (req, opt, some rs)
                    else .error (.errMsg "Found multiple arguments after &rest")
          else if inOpt then parseArgItems xs req (opt ++ [s]) true
          else parseArgItems xs (req ++ [s]) opt false

def parseArgList (st : GState) (o : Obj) :
    Except Err (List String × List String × Option String) :=
  match asList st o with
  | .ok l => parseArgItems l [] [] false
  | .error e => .error e

/-- The required-parameter loop of bind_args: each name takes the next
argument (the unwrap can only panic when the earlier arity check was
bypassed) and a fresh mutable binding cell is pushed. -/
def pushReqArgs :
    List String → List Obj → List Nat → GState →
    (Except Err (List Nat × List Obj)) × GState
  | [], argv, vars, st => (.ok (vars, argv), st)
  | nm :: nms, v :: argv, vars, st =>
      match alloc st { car := .symV nm, cdr := v, mutFlag := true } with
      | (a, st2) => pushReqArgs nms argv (a :: vars) st2
  | _ :: _, [], vars, st => (.error (.panicked "unwrap of missing argument"), st)

/-- The optional-parameter loop of bind_args: a missing argument defaults
to nil (unwrap_or_default). -/
def pushOptArgs :
    List String → List Obj → List Nat → GState →
    List Nat × List Obj × GState
  | [], argv, vars, st => (vars, argv, st)
  | nm :: nms, v :: argv, vars, st =>
      match alloc st { car := .symV nm, cdr := v, mutFlag := true } with
      | (a, st2) => pushOptArgs nms argv (a :: vars) st2
  | nm :: nms, [], vars, st =>
      match alloc st { car := .symV nm, cdr := .nilV, mutFlag := true } with
      | (a, st2) => pushOptArgs nms [] (a :: vars) st2

/-- Interpreter.bind_args after parsing: the arity checks and the three
binding groups, in source order.  The arity bookkeeping is done in u16
(required.len() as u16, optional.len() as u16, args.len() as u16, and
their u16 sum), so the counts compared and the ArgCount payloads wrap at
2^16 = 65536, while the binding loops run over the real lists (the
required loop's unwrap panics when the wrapped check let too few
arguments through).  With a rest parameter the remaining arguments become
a fresh list; without one, remaining arguments are an arity error with
the wrapped payload (raised only after the positional cells were already
allocated, as in the source). -/
def bindParsed (req opt : List String) (restName : Option String)
    (args : List Obj) (vars : List Nat) (st : GState) :
    (Except Err (List Nat)) × GState :=
  if args.length % 65536 < req.length % 65536 then
    (.error (.argCount (req.length % 65536) (args.length % 65536)), st)
  else
    match pushReqArgs req args vars st with
    | (.error e, st2) => (.error e, st2)
    | (.ok (vars1, rem1), st2) =>
        match pushOptArgs opt rem1 vars1 st2 with
        | (vars2, rem2, st3) =>
            match restName with
            | some r =>
                match sliceIntoList st3 rem2 none with
                | (lst, st4) =>
                    match alloc st4 { car := .symV r, cdr := lst, mutFlag := true } with
                    | (a, st5) => (.ok (a :: vars2), st5)
            | none =>
                if rem2.isEmpty then (.ok vars2, st3)
                else (.error (.argCount
                    ((req.length % 65536 + opt.length % 65536) % 65536)
                    (args.length % 65536)), st3)

def bindArgs (st : GState) (argList : Obj) (args : List Obj)
    (vars : List Nat) : (Except Err (List Nat)) × GState :=
  match parseArgList st argList with
  | .error e => (.error e, st)
  | .ok (req, opt, restName) => bindParsed req opt restName args vars st

/-- Interpreter.bind_variables: the closure environment pairs become the
initial stack (innermost last in the written order, hence the reverse in
the head-first model), and the formal parameters are bound on top. -/
def bindVariables (st : GState) (forms : List Obj) (args : List Obj) :
    (Except Err (List Nat × List Obj)) × GState :=
  match forms with
  | [] => (.error (.errMsg "Closure missing environment"), st)
  | envForm :: rest =>
      match parseClosureEnv st envForm with
      | .error e => (.error e, st)
      | .ok envAddrs =>
          match rest with
          | [] => (.error (.errMsg "Closure missing argument list"), st)
          | argList :: body =>
              match bindArgs st argList args envAddrs.reverse with
              | (.error e, st2) => (.error e, st2)
              | (.ok vars2, st2) => (.ok (vars2, body), st2)

/-- Interpreter.quote: exactly one argument, returned unevaluated. -/
def quoteForm (st : GState) (o : Obj) : Except Err Obj :=
  match asList st o with
  | .error e => .error e
  | .ok [x] => .ok x
  | .ok l => .error (.argCount 1 l.length)

/-- Interpreter.eval_function: a single argument; a (lambda ...) cons is
turned into (closure ENV ...) where ENV lists the current binding cells
(sharing their addresses, hence capture by reference) in stack order, ended
by the element t; any other argument is returned as is. -/
def evalFunctionH (st : GState) (vars : List Nat) (o : Obj) :
    (Except Err Obj) × GState :=
  match asList st o with
  | .error e => (.error e, st)
  | .ok [x] =>
      match x with
      | .consV a =>
          match st.heap[a]? with
          | some c =>
              if c.car == Obj.symV "lambda" then
                match alloc st { car := .tru, cdr := .nilV, mutFlag := true } with
                | (ta, st2) =>
                    match sliceIntoList st2 (vars.reverse.map Obj.consV)
                        (some (.consV ta)) with
                    | (envList, st3) =>
                        match alloc st3 { car := envList, cdr := c.cdr, mutFlag := true } with
                        | (ea, st4) =>
                            match alloc st4
                                { car := .symV "closure", cdr := .consV ea,
                                  mutFlag := true } with
                            | (ca, st5) => (.ok (.consV ca), st5)
              else (.ok x, st)
          | none => (.error (.panicked "dangling cons address"), st)
      | v => (.ok v, st)
  | .ok l => (.error (.argCount 1 l.length), st)

/-- The value a binding cell gets in let_bind_value, given the converted
name, allocated as a fresh mutable cell. -/
def letBindFinish (st : GState) (nameObj : Obj) (value : Obj) :
    (Except Err Nat) × GState :=
  match toSym nameObj with
  | .error e => (.error e, st)
  | .ok name =>
      match alloc st { car := .symV name, cdr := value, mutFlag := true } with
      | (a, st2) => (.ok a, st2)

/-! The evaluator proper.  The twenty mutually recursive functions of
src/interpreter.rs are defunctionalized into one fuel-indexed step
function: a request names the function and carries its arguments, a
payload carries its result, and named wrappers below restore the source
signatures.  The recursion is a plain Nat.rec on the fuel, so concrete
programs evaluate by kernel reduction; every recursive call of the source
runs at one fuel level lower, exactly as each function did in the fuel
model. -/

/-- One request per interpreter function (its arguments except the
collaborator, the fuel and the state). -/
inductive Req where
  | rForm (o : Obj) (vars : List Nat)
  | rSexp (a : Nat) (vars : List Nat)
  | rAndLoop (l : List Obj) (last : Obj) (vars : List Nat)
  | rOrLoop (l : List Obj) (last : Obj) (vars : List Nat)
  | rCondLoop (l : List Obj) (last : Obj) (vars : List Nat)
  | rWhile (condF : Obj) (body : List Obj) (vars : List Nat)
  | rProgx (l : List Obj) (progNum count : Nat) (saved : Option Obj) (vars : List Nat)
  | rProgn (l : List Obj) (last : Obj) (vars : List Nat)
  | rIf (o : Obj) (vars : List Nat)
  | rSetq (l : List Obj) (cnt : Nat) (last : Option Obj) (vars : List Nat)
  | rDefvar (o : Obj) (vars : List Nat)
  | rLet (o : Obj) (parallel : Bool) (vars : List Nat)
  | rLetSerial (o : Obj) (vars : List Nat)
  | rLetSerialLoop (l : List Obj) (vars : List Nat)
  | rLetParallel (o : Obj) (vars : List Nat)
  | rLetParallelLoop (l : List Obj) (outer acc : List Nat)
  | rLetValue (a : Nat) (vars : List Nat)
  | rList (l : List Obj) (vars : List Nat)
  | rCall (name : String) (o : Obj) (vars : List Nat)
  | rClosure (a : Nat) (args : List Obj)
  deriving DecidableEq, Repr

/-- The result payload of a request: an object for the evaluation
functions, an object list for argument evaluation, an address list for the
binders, a single address for let_bind_value. -/
inductive Pay where
  | pObj (v : Obj)
  | pObjs (vs : List Obj)
  | pAddrs (l : List Nat)
  | pAddr (a : Nat)
  deriving DecidableEq, Repr

/-- Project an object result out of a payload result.  A wrong payload
kind cannot arise (every request is answered with its own kind); it is
mapped to a panic. -/
def asObj : (Except Err Pay) × GState → (Except Err Obj) × GState
  | (.ok (.pObj v), st) => (.ok v, st)
  | (.ok _, st) => (.error (.panicked "wrong payload"), st)
  | (.error e, st) => (.error e, st)

def asObjs : (Except Err Pay) × GState → (Except Err (List Obj)) × GState
  | (.ok (.pObjs vs), st) => (.ok vs, st)
  | (.ok _, st) => (.error (.panicked "wrong payload"), st)
  | (.error e, st) => (.error e, st)

def asAddrs : (Except Err Pay) × GState → (Except Err (List Nat)) × GState
  | (.ok (.pAddrs l), st) => (.ok l, st)
  | (.ok _, st) => (.error (.panicked "wrong payload"), st)
  | (.error e, st) => (.error e, st)

def asAddr : (Except Err Pay) × GState → (Except Err Nat) × GState
  | (.ok (.pAddr a), st) => (.ok a, st)
  | (.ok _, st) => (.error (.panicked "wrong payload"), st)
  | (.error e, st) => (.error e, st)

/-- Wrap an object result back into a payload result. -/
def wrapObj : (Except Err Obj) × GState → (Except Err Pay) × GState
  | (.ok v, st) => (.ok (.pObj v), st)
  | (.error e, st) => (.error e, st)

/-- One step of the evaluator: the body of every function of
src/interpreter.rs, dispatched on the request; ih answers requests at the
next lower fuel level. -/
def runStep (C : Collab) (ih : Req → GState → (Except Err Pay) × GState) :
    Req → GState → (Except Err Pay) × GState
  -- Interpreter.eval_form: symbols are looked up, conses dispatch to
  -- eval_sexp, everything else self-evaluates.
  | .rForm o vars, st =>
      match o with
      | .symV s => wrapObj (varRef st vars s, st)
      | .consV a => ih (.rSexp a vars) st
      | other => (.ok (.pObj other), st)
  -- Interpreter.eval_sexp: dispatch on the head symbol of the cons; a
  -- non-symbol head is an invalid function.
  | .rSexp a vars, st =>
      match getCell st a with
      | none => (.error (.panicked "dangling cons address"), st)
      | some c =>
          match c.car with
          | .symV s =>
              if s = "quote" then wrapObj (quoteForm st c.cdr, st)
              else if s = "let" then ih (.rLet c.cdr true vars) st
              else if s = "let*" then ih (.rLet c.cdr false vars) st
              else if s = "if" then ih (.rIf c.cdr vars) st
              else if s = "and" then
                match asList st c.cdr with
                | .error e => (.error e, st)
                | .ok l => ih (.rAndLoop l .tru vars) st
              else if s = "or" then
                match asList st c.cdr with
                | .error e => (.error e, st)
                | .ok l => ih (.rOrLoop l .nilV vars) st
              else if s = "cond" then
                match asList st c.cdr with
                | .error e => (.error e, st)
                | .ok l => ih (.rCondLoop l .nilV vars) st
              else if s = "while" then
                match asList st c.cdr with
                | .error e => (.error e, st)
                | .ok [] => (.error (.argCount 1 0), st)
                | .ok (condF :: body) => ih (.rWhile condF body vars) st
              else if s = "progn" then
                match asList st c.cdr with
                | .error e => (.error e, st)
                | .ok l => ih (.rProgn l .nilV vars) st
              else if s = "prog1" then
                match asList st c.cdr with
                | .error e => (.error e, st)
                | .ok l => ih (.rProgx l 1 0 none vars) st
              else if s = "prog2" then
                match asList st c.cdr with
                | .error e => (.error e, st)
                | .ok l => ih (.rProgx l 2 0 none vars) st
              else if s = "setq" then
                match asList st c.cdr with
                | .error e => (.error e, st)
                | .ok l => ih (.rSetq l 0 none vars) st
              else if s = "defvar" then ih (.rDefvar c.cdr vars) st
              else if s = "defconst" then ih (.rDefvar c.cdr vars) st
              else if s = "function" then wrapObj (evalFunctionH st vars c.cdr)
              else ih (.rCall s c.cdr vars) st
          | _ => (.error (.errMsg "Invalid Function"), st)
  -- Interpreter.eval_and.
  | .rAndLoop l last vars, st =>
      match l with
      | [] => (.ok (.pObj last), st)
      | f :: fs =>
          match asObj (ih (.rForm f vars) st) with
          | (.error e, st2) => (.error e, st2)
          | (.ok v, st2) =>
              if v == Obj.nilV then (.ok (.pObj v), st2)
              else ih (.rAndLoop fs v vars) st2
  -- Interpreter.eval_or.
  | .rOrLoop l last vars, st =>
      match l with
      | [] => (.ok (.pObj last), st)
      | f :: fs =>
          match asObj (ih (.rForm f vars) st) with
          | (.error e, st2) => (.error e, st2)
          | (.ok v, st2) =>
              if v == Obj.nilV then ih (.rOrLoop fs v vars) st2
              else (.ok (.pObj v), st2)
  -- Interpreter.eval_cond: the first clause with a non-nil test wins; its
  -- body (when present) runs as an implicit progn, else the test value.
  | .rCondLoop l last vars, st =>
      match l with
      | [] => (.ok (.pObj last), st)
      | form :: rest =>
          match asList st form with
          | .error e => (.error e, st)
          | .ok clause =>
              match asObj (ih (.rForm
                  (match clause with | f :: _ => f | [] => .nilV) vars) st) with
              | (.error e, st2) => (.error e, st2)
              | (.ok v, st2) =>
                  if v == Obj.nilV then ih (.rCondLoop rest v vars) st2
                  else
                    match clause with
                    | _ :: b :: bs => ih (.rProgn (b :: bs) .nilV vars) st2
                    | _ => (.ok (.pObj v), st2)
  -- Interpreter.eval_while: re-evaluate the condition before each
  -- iteration; the body value is discarded; the result is nil.
  | .rWhile condF body vars, st =>
      match asObj (ih (.rForm condF vars) st) with
      | (.error e, st2) => (.error e, st2)
      | (.ok v, st2) =>
          if v == Obj.nilV then (.ok (.pObj .nilV), st2)
          else
            match asObj (ih (.rProgn body .nilV vars) st2) with
            | (.error e, st3) => (.error e, st3)
            | (.ok _, st3) => ih (.rWhile condF body vars) st3
  -- Interpreter.eval_progx: evaluate every form, remembering the value at
  -- the requested position; too few forms is an arity error.
  | .rProgx l progNum count saved vars, st =>
      match l with
      | [] =>
          (match saved with
           | some v => (.ok (.pObj v), st)
           | none => (.error (.argCount progNum count), st))
      | f :: fs =>
          match asObj (ih (.rForm f vars) st) with
          | (.error e, st2) => (.error e, st2)
          | (.ok v, st2) =>
              ih (.rProgx fs progNum (count + 1)
                (if progNum = count + 1 then some v else saved) vars) st2
  -- Interpreter.implicit_progn.
  | .rProgn l last vars, st =>
      match l with
      | [] => (.ok (.pObj last), st)
      | f :: fs =>
          match asObj (ih (.rForm f vars) st) with
          | (.error e, st2) => (.error e, st2)
          | (.ok v, st2) => ih (.rProgn fs v vars) st2
  -- Interpreter.eval_if: condition and then-branch are mandatory; the
  -- else branch is an implicit progn.
  | .rIf o vars, st =>
      match asList st o with
      | .error e => (.error e, st)
      | .ok [] => (.error (.argCount 2 0), st)
      | .ok [_] => (.error (.argCount 2 1), st)
      | .ok (condF :: thenF :: elseFs) =>
          match asObj (ih (.rForm condF vars) st) with
          | (.error e, st2) => (.error e, st2)
          | (.ok v, st2) =>
              if v == Obj.nilV then ih (.rProgn elseFs .nilV vars) st2
              else ih (.rForm thenF vars) st2
  -- Interpreter.setq: (symbol value) pairs, each value evaluated and
  -- assigned in turn; a trailing unpaired form is an arity error, a
  -- non-symbol target a type error, no pairs at all an arity error.
  | .rSetq l cnt last vars, st =>
      match l with
      | [] =>
          (match last with
           | some v => (.ok (.pObj v), st)
           | none => (.error (.argCount 2 0), st))
      | [_] => (.error (.argCount cnt (cnt + 1)), st)
      | x :: v :: rest =>
          match x with
          | .symV s =>
              match asObj (ih (.rForm v vars) st) with
              | (.error e, st2) => (.error e, st2)
              | (.ok value, st2) =>
                  match varSet st2 vars s value with
                  | (.error e, st3) => (.error e, st3)
                  | (.ok rv, st3) => ih (.rSetq rest (cnt + 2) (some rv) vars) st3
          | other => (.error (.typeErr .symbolT (typeOf other)), st)
  -- Interpreter.defvar (also dispatched to by defconst): bind the symbol
  -- through var_set to the evaluated value, nil when no value form is
  -- given; no symbol at all is an arity error.
  | .rDefvar o vars, st =>
      match asList st o with
      | .error e => (.error e, st)
      | .ok [] => (.error (.argCount 1 0), st)
      | .ok (x :: rest) =>
          match toSym x with
          | .error e => (.error e, st)
          | .ok name =>
              match rest with
              | [] => wrapObj (varSet st vars name .nilV)
              | v :: _ =>
                  match asObj (ih (.rForm v vars) st) with
                  | (.error e, st2) => (.error e, st2)
                  | (.ok value, st2) => wrapObj (varSet st2 vars name value)
  -- Interpreter.eval_let: bind (parallel for let, serial for let*), run
  -- the body in the extended stack, return to the callers stack after.
  | .rLet o parallel vars, st =>
      match asList st o with
      | .error e => (.error e, st)
      | .ok [] => (.error (.argCount 1 0), st)
      | .ok (bindings :: body) =>
          if parallel then
            match asAddrs (ih (.rLetParallel bindings vars) st) with
            | (.error e, st2) => (.error e, st2)
            | (.ok newAddrs, st2) => ih (.rProgn body .nilV (newAddrs ++ vars)) st2
          else
            match asAddrs (ih (.rLetSerial bindings vars) st) with
            | (.error e, st2) => (.error e, st2)
            | (.ok vars2, st2) => ih (.rProgn body .nilV vars2) st2
  -- Interpreter.let_bind_serial: iterate the written bindings.
  | .rLetSerial o vars, st =>
      match asList st o with
      | .error e => (.error e, st)
      | .ok bs => ih (.rLetSerialLoop bs vars) st
  -- The serial loop: each binding is pushed before the next initializer
  -- is evaluated, so later initializers see earlier bindings.
  | .rLetSerialLoop l vars, st =>
      match l with
      | [] => (.ok (.pAddrs vars), st)
      | b :: bs =>
          match b with
          | .consV a =>
              match asAddr (ih (.rLetValue a vars) st) with
              | (.error e, st2) => (.error e, st2)
              | (.ok addr, st2) => ih (.rLetSerialLoop bs (addr :: vars)) st2
          | .symV _ =>
              match alloc st { car := b, cdr := .nilV, mutFlag := true } with
              | (a, st2) => ih (.rLetSerialLoop bs (a :: vars)) st2
          | x => (.error (.typeErr .consT (typeOf x)), st)
  -- Interpreter.let_bind_parallel: iterate the written bindings.
  | .rLetParallel o vars, st =>
      match asList st o with
      | .error e => (.error e, st)
      | .ok bs => ih (.rLetParallelLoop bs vars []) st
  -- The parallel loop: every initializer is evaluated against the outer
  -- stack; the new bindings are collected aside and appended only after
  -- all initializers ran.
  | .rLetParallelLoop l outer acc, st =>
      match l with
      | [] => (.ok (.pAddrs acc), st)
      | b :: bs =>
          match b with
          | .consV a =>
              match asAddr (ih (.rLetValue a outer) st) with
              | (.error e, st2) => (.error e, st2)
              | (.ok addr, st2) => ih (.rLetParallelLoop bs outer (addr :: acc)) st2
          | .symV _ =>
              match alloc st { car := b, cdr := .nilV, mutFlag := true } with
              | (a, st2) => ih (.rLetParallelLoop bs outer (a :: acc)) st2
          | x => (.error (.typeErr .consT (typeOf x)), st)
  -- Interpreter.let_bind_value: zero value forms bind nil, one is
  -- evaluated, more are malformed; then the name is converted and a fresh
  -- mutable binding cell allocated.
  | .rLetValue a vars, st =>
      match getCell st a with
      | none => (.error (.panicked "dangling cons address"), st)
      | some c =>
          match asList st c.cdr with
          | .error e => (.error e, st)
          | .ok [] =>
              (match letBindFinish st c.car .nilV with
               | (.ok addr, st2) => (.ok (.pAddr addr), st2)
               | (.error e, st2) => (.error e, st2))
          | .ok [vf] =>
              match asObj (ih (.rForm vf vars) st) with
              | (.error e, st2) => (.error e, st2)
              | (.ok value, st2) =>
                  (match letBindFinish st2 c.car value with
                   | (.ok addr, st3) => (.ok (.pAddr addr), st3)
                   | (.error e, st3) => (.error e, st3))
          | .ok _ => (.error (.errMsg "Let binding forms can only have 1 value"), st)
  -- The argument evaluation of eval_call: forms evaluated left to right,
  -- stopping at the first error.
  | .rList l vars, st =>
      match l with
      | [] => (.ok (.pObjs []), st)
      | f :: fs =>
          match asObj (ih (.rForm f vars) st) with
          | (.error e, st2) => (.error e, st2)
          | (.ok v, st2) =>
              match asObjs (ih (.rList fs vars) st2) with
              | (.error e, st3) => (.error e, st3)
              | (.ok vs, st3) => (.ok (.pObjs (v :: vs)), st3)
  -- Interpreter.eval_call: resolve the head symbol to a callable.
  -- Compiled and native functions get evaluated arguments and run
  -- externally; a macro gets the unevaluated forms and its result is then
  -- evaluated; an uncompiled closure form gets evaluated arguments and
  -- call_closure.
  | .rCall name formsObj vars, st =>
      match resolveCallable st name with
      | none => (.error (.errMsg "Invalid function"), st)
      | some (.lispFn i) =>
          match asList st formsObj with
          | .error e => (.error e, st)
          | .ok fs =>
              match asObjs (ih (.rList fs vars) st) with
              | (.error e, st2) => (.error e, st2)
              | (.ok args, st2) => wrapObj (C.lispCall i args st2)
      | some (.subrFn i) =>
          match asList st formsObj with
          | .error e => (.error e, st)
          | .ok fs =>
              match asObjs (ih (.rList fs vars) st) with
              | (.error e, st2) => (.error e, st2)
              | (.ok args, st2) => wrapObj (C.subrCall i args st2)
      | some (.macroFn i) =>
          match asList st formsObj with
          | .error e => (.error e, st)
          | .ok margs =>
              match C.macroCall i margs st with
              | (.error e, st2) => (.error e, st2)
              | (.ok value, st2) => ih (.rForm value vars) st2
      | some (.uncompiled a) =>
          match getCell st a with
          | none => (.error (.panicked "dangling cons address"), st)
          | some c =>
              if c.car == Obj.symV "closure" then
                match asList st formsObj with
                | .error e => (.error e, st)
                | .ok fs =>
                    match asObjs (ih (.rList fs vars) st) with
                    | (.error e, st2) => (.error e, st2)
                    | (.ok args, st2) => ih (.rClosure a args) st2
              else (.error (.errMsg "Invalid Function"), st)
  -- Interpreter.call_closure: a (closure ENV ARGLIST . BODY) cons gets a
  -- fresh call frame whose stack is the captured environment plus the
  -- bound parameters; anything else is a type error with the cars type.
  | .rClosure a args, st =>
      match getCell st a with
      | none => (.error (.panicked "dangling cons address"), st)
      | some c =>
          if c.car == Obj.symV "closure" then
            match asList st c.cdr with
            | .error e => (.error e, st)
            | .ok forms =>
                match bindVariables st forms args with
                | (.error e, st2) => (.error e, st2)
                | (.ok (vars2, body), st2) => ih (.rProgn body .nilV vars2) st2
          else (.error (.typeErr .funcT (typeOf c.car)), st)

/-- The fuel-indexed evaluator: zero fuel answers every request with the
fuel error, and each further level runs one step. -/
def run (C : Collab) (n : Nat) : Req → GState → (Except Err Pay) × GState :=
  Nat.rec (motive := fun _ => Req → GState → (Except Err Pay) × GState)
    (fun _ st => (.error .fuel, st))
    (fun _ ih => runStep C ih)
    n

/-- Interpreter.eval_form. -/
def evalForm (C : Collab) (n : Nat) (o : Obj) (vars : List Nat) (st : GState) :
    (Except Err Obj) × GState :=
  asObj (run C n (.rForm o vars) st)

/-- Interpreter.eval_sexp. -/
def evalSexp (C : Collab) (n : Nat) (a : Nat) (vars : List Nat) (st : GState) :
    (Except Err Obj) × GState :=
  asObj (run C n (.rSexp a vars) st)

/-- Interpreter.eval_call. -/
def evalCall (C : Collab) (n : Nat) (name : String) (formsObj : Obj)
    (vars : List Nat) (st : GState) : (Except Err Obj) × GState :=
  asObj (run C n (.rCall name formsObj vars) st)

/-- Interpreter.call_closure. -/
def callClosure (C : Collab) (n : Nat) (a : Nat) (args : List Obj)
    (st : GState) : (Except Err Obj) × GState :=
  asObj (run C n (.rClosure a args) st)

/-- Interpreter.implicit_progn. -/
def implicitProgn (C : Collab) (n : Nat) (l : List Obj) (last : Obj)
    (vars : List Nat) (st : GState) : (Except Err Obj) × GState :=
  asObj (run C n (.rProgn l last vars) st)

/-- Interpreter.eval_let. -/
def evalLet (C : Collab) (n : Nat) (o : Obj) (parallel : Bool)
    (vars : List Nat) (st : GState) : (Except Err Obj) × GState :=
  asObj (run C n (.rLet o parallel vars) st)

/-- Interpreter.defvar. -/
def defvarF (C : Collab) (n : Nat) (o : Obj) (vars : List Nat) (st : GState) :
    (Except Err Obj) × GState :=
  asObj (run C n (.rDefvar o vars) st)

/-- Interpreter.setq (the pair loop). -/
def setqLoop (C : Collab) (n : Nat) (l : List Obj) (cnt : Nat)
    (last : Option Obj) (vars : List Nat) (st : GState) :
    (Except Err Obj) × GState :=
  asObj (run C n (.rSetq l cnt last vars) st)

/-- Interpreter.let_bind_serial. -/
def letBindSerialF (C : Collab) (n : Nat) (o : Obj) (vars : List Nat)
    (st : GState) : (Except Err (List Nat)) × GState :=
  asAddrs (run C n (.rLetSerial o vars) st)

/-- Interpreter.let_bind_parallel. -/
def letBindParallelF (C : Collab) (n : Nat) (o : Obj) (vars : List Nat)
    (st : GState) : (Except Err (List Nat)) × GState :=
  asAddrs (run C n (.rLetParallel o vars) st)

/-- The parallel binding loop (the let_bindings vector of
let_bind_parallel). -/
def letBindParallelLoop (C : Collab) (n : Nat) (l : List Obj)
    (outer acc : List Nat) (st : GState) : (Except Err (List Nat)) × GState :=
  asAddrs (run C n (.rLetParallelLoop l outer acc) st)

/-- Interpreter.let_bind_value. -/
def letBindValueF (C : Collab) (n : Nat) (a : Nat) (vars : List Nat)
    (st : GState) : (Except Err Nat) × GState :=
  asAddr (run C n (.rLetValue a vars) st)

/-- The argument evaluation loop of eval_call. -/
def evalList (C : Collab) (n : Nat) (l : List Obj) (vars : List Nat)
    (st : GState) : (Except Err (List Obj)) × GState :=
  asObjs (run C n (.rList l vars) st)

/-- The public eval entry point: the lexical flag must be t, nil or
absent; the interpreter starts with an empty lexical stack. -/
def evalEntry (C : Collab) (fuel : Nat) (form : Obj) (lexical : Option Obj)
    (st : GState) : (Except Err Obj) × GState :=
  match lexical with
  | none => evalForm C fuel form [] st
  | some .tru => evalForm C fuel form [] st
  | some .nilV => evalForm C fuel form [] st
  | some _ => (.error (.errMsg "lexical enviroments are not yet supported"), st)

/-- The public call entry point: invoke a closure value directly with
already evaluated arguments. -/
def callEntry (C : Collab) (fuel : Nat) (form : Obj) (args : List Obj)
    (st : GState) : (Except Err Obj) × GState :=
  match form with
  | .consV a => callClosure C fuel a args st
  | o => (.error (.typeErr .consT (typeOf o)), st)

/-- A collaborator with no compiled functions, native functions or macros:
every external call fails.  Concrete programs in the theorems below only
exercise the interpreter itself. -/
def noCollab : Collab :=
  { lispCall := fun _ _ st => (.error (.errMsg "no external functions"), st)
    subrCall := fun _ _ st => (.error (.errMsg "no external functions"), st)
    macroCall := fun _ _ st => (.error (.errMsg "no external functions"), st) }

def emptyState : GState := { heap := [], globals := [], funcs := [] }

/-- Build a proper list value in the heap (used to write concrete test
programs, the way the reader would deliver them). -/
def buildList (st : GState) (xs : List Obj) : Obj × GState :=
  sliceIntoList st xs none

/-- The programs (let ((x 1) (y x)) y) and (let* ((x 1) (y x)) y),
together with the heap holding them. -/
def c2prog (star : Bool) : Obj × GState :=
  match buildList emptyState [.symV "x", .intV 1] with
  | (b1, s1) =>
  match buildList s1 [.symV "y", .symV "x"] with
  | (b2, s2) =>
  match buildList s2 [b1, b2] with
  | (bs, s3) =>
  buildList s3 [.symV (if star then "let*" else "let"), bs, .symV "y"]

/-- The program
(let ((x 1))
  (setq f1 (function (lambda () (setq x 42))))
  (setq f2 (function (lambda () x)))). -/
def c4prog : Obj × GState :=
  match buildList emptyState [.symV "x", .intV 1] with
  | (b1, s1) =>
  match buildList s1 [b1] with
  | (bs, s2) =>
  match buildList s2 [.symV "setq", .symV "x", .intV 42] with
  | (inner1, s3) =>
  match buildList s3 [.symV "lambda", .nilV, inner1] with
  | (lam1, s4) =>
  match buildList s4 [.symV "function", lam1] with
  | (fn1, s5) =>
  match buildList s5 [.symV "setq", .symV "f1", fn1] with
  | (sq1, s6) =>
  match buildList s6 [.symV "lambda", .nilV, .symV "x"] with
  | (lam2, s7) =>
  match buildList s7 [.symV "function", lam2] with
  | (fn2, s8) =>
  match buildList s8 [.symV "setq", .symV "f2", fn2] with
  | (sq2, s9) =>
  buildList s9 [.symV "let", bs, sq1, sq2]

/-- Run c4prog, then invoke the stored closure f1 (whose body mutates the
captured x) and afterwards f2 (whose body reads x), both through the public
call entry point. -/
def c4run : Except Err Obj :=
  match evalForm noCollab 100 c4prog.1 [] c4prog.2 with
  | (.error e, _) => .error e
  | (.ok _, st1) =>
      match globalLookup st1 "f1", globalLookup st1 "f2" with
      | some f1, some f2 =>
          match callEntry noCollab 100 f1 [] st1 with
          | (.error e, _) => .error e
          | (.ok _, st2) => (callEntry noCollab 100 f2 [] st2).1
      | _, _ => .error (.errMsg "stored closures missing")

/-- The program (setq a N b kaboom) where kaboom is an unbound symbol. -/
def c8a (n : Int) : Obj × GState :=
  buildList emptyState
    [.symV "setq", .symV "a", .intV n, .symV "b", .symV "kaboom"]

/-- The program (let ((x N)) (setq g 7) kaboom). -/
def c8b (n : Int) : Obj × GState :=
  match buildList emptyState [.symV "x", .intV n] with
  | (b1, s1) =>
  match buildList s1 [b1] with
  | (bs, s2) =>
  match buildList s2 [.symV "setq", .symV "g", .intV 7] with
  | (sq, s3) =>
  buildList s3 [.symV "let", bs, sq, .symV "kaboom"]

/-- What the specification says the macro arm of eval_call does: pass the
argument forms to the transform without evaluating them, then evaluate the
single form the transform returns. -/
def macroCallSpec (C : Collab) (n : Nat) (i : Nat) (formsObj : Obj)
    (vars : List Nat) (st : GState) : (Except Err Obj) × GState :=
  match asList st formsObj with
  | .error e => (.error e, st)
  | .ok margs =>
      match C.macroCall i margs st with
      | (.error e, st2) => (.error e, st2)
      | (.ok value, st2) => evalForm C n value vars st2

/-- A collaborator whose only macro ignores its arguments and returns the
literal 7: its argument forms can then contain unbound symbols without any
void-variable error, which witnesses that they are not evaluated. -/
def c6collab : Collab :=
  { lispCall := fun _ _ st => (.error (.errMsg "no external functions"), st)
    subrCall := fun _ _ st => (.error (.errMsg "no external functions"), st)
    macroCall := fun _ _ st => (.ok (.intV 7), st) }

/-- State for the macro witness: the symbol m names macro 0, and the heap
holds the argument list (nope) whose element is an unbound symbol. -/
def c6st : GState :=
  { heap := [{ car := .symV "nope", cdr := .nilV, mutFlag := true }],
    globals := [],
    funcs := [("m", .macroFn 0)] }

/-- State for the defvar/defconst witness: two heap cells holding
(defconst) and (defvar) with the same (empty) argument forms. -/
def c10st : GState :=
  { heap := [{ car := .symV "defconst", cdr := .nilV, mutFlag := true },
             { car := .symV "defvar", cdr := .nilV, mutFlag := true }],
    globals := [], funcs := [] }

/-- Read the car and cdr of a heap cell (used to state what the binder
functions produced). -/
def readPair (st : GState) (a : Nat) : Option (Obj × Obj) :=
  match st.heap[a]? with
  | some c => some (c.car, c.cdr)
  | none => none

/-- The optional-parameter values: the given arguments padded with nil up
to the number of optional parameters. -/
def padNils (l : List Obj) (k : Nat) : List Obj :=
  l.take k ++ List.replicate (k - l.length) Obj.nilV

/-- The heap only ever grows by appending (the arena never moves or frees
an allocation while it is alive). -/
def HeapExt (st st2 : GState) : Prop :=
  ∃ ext, st2.heap = st.heap ++ ext

/-- What argument binding produces for a parsed parameter list, read back
from the final state: the new stack segment is the rest binding on top of
the optionals on top of the requireds (each group pushed in order, hence
reversed here), required and optional names are bound positionally with
missing optionals bound to nil, and the rest name is bound to a list of
exactly the remaining arguments. -/
def BindSpec (st2 : GState) (newAddrs : List Nat) (req opt : List String)
    (restName : Option String) (args : List Obj) : Prop :=
  ∃ reqA optA restA : List Nat,
    newAddrs = restA ++ optA.reverse ++ reqA.reverse ∧
    List.Forall₂ (fun (nv : String × Obj) (p : Nat) =>
        readPair st2 p = some (.symV nv.1, nv.2))
      (req.zip (args.take req.length)) reqA ∧
    List.Forall₂ (fun (nv : String × Obj) (p : Nat) =>
        readPair st2 p = some (.symV nv.1, nv.2))
      (opt.zip (padNils (args.drop req.length) opt.length)) optA ∧
    (match restName with
     | none => restA = []
     | some r => ∃ (ra : Nat) (o : Obj), restA = [ra] ∧
         readPair st2 ra = some (.symV r, o) ∧
         asList st2 o = .ok (args.drop (req.length + opt.length)))

/-- Mutability flags of already-allocated cells are never changed by the
interpreter: every cell of the first state is still present at the same
address in the second state with the same mutability flag (its contents
may have changed through set_cdr). -/
def MutPreserved (st st2 : GState) : Prop :=
  ∀ (a : Nat) (c : Cell), st.heap[a]? = some c →
    ∃ c2, st2.heap[a]? = some c2 ∧ c2.mutFlag = c.mutFlag

/-- The external collaborators preserve mutability flags as well: they
share the arena and mutate cells only through the checked accessors. -/
def CollabMut (C : Collab) : Prop :=
  (∀ i args st, MutPreserved st (C.lispCall i args st).2) ∧
  (∀ i args st, MutPreserved st (C.subrCall i args st).2) ∧
  (∀ i args st, MutPreserved st (C.macroCall i args st).2)

/-- Heap extension by exclusively mutable cells: the shape of every state
change performed by the binding helpers (they allocate fresh binding cells
and touch nothing else, and every cell they allocate carries the mutable
flag). -/
def ExtMut (st st2 : GState) : Prop :=
  ∃ ext, st2.heap = st.heap ++ ext ∧ ∀ c ∈ ext, c.mutFlag = true

/-! ### Value word round-trip facts (claim C1) -/

theorem i64wrap_eq_self {x : Int} (h1 : -(2 ^ 63) ≤ x) (h2 : x < 2 ^ 63) :
    i64wrap x = x := by
  unfold i64wrap
  norm_num at h1 h2 ⊢
  omega

theorem intRoundTrip_in_range {i : Int} (h1 : -(2 ^ 55) ≤ i) (h2 : i < 2 ^ 55) :
    intRoundTrip i = i := by
  unfold intRoundTrip intToObj from_tag_bits objValInt tagInt TAG_SIZE i64wrap
  rw [Int.fdiv_eq_ediv _ (by norm_num)]
  norm_num at h1 h2 ⊢
  omega

theorem boolRoundTrip_id (b : Bool) : boolRoundTrip b = b := by
  cases b <;> decide

theorem ptrRoundTrip_id {α : Type} (h : List α) (v : α) (tag : Nat)
    (hlen : h.length < 2 ^ 55) (htag : tag < 256) :
    ptrRoundTrip h v tag = some v := by
  unfold ptrRoundTrip ptrToObj arenaAlloc objToPtrVal
  simp only
  have hbits : objValInt (from_tag_bits (h.length : Int) tag) = (h.length : Int) := by
    unfold from_tag_bits objValInt TAG_SIZE i64wrap
    rw [Int.fdiv_eq_ediv _ (by norm_num)]
    norm_num at hlen ⊢
    omega
  have htagb : wordTag (from_tag_bits (h.length : Int) tag) = tag := by
    unfold wordTag from_tag_bits TAG_SIZE i64wrap
    norm_num at hlen ⊢
    omega
  rw [htagb, if_pos rfl, hbits]
  have hcast : ((h.length : Int)).toNat = h.length := by omega
  rw [hcast]
  exact List.getElem?_concat_length h v

/-! ### Data word facts (claim C5) -/

theorem two_pow_55_int : (2 : Int) ^ 55 = 36028797018963968 := by norm_num
theorem two_pow_56_int : (2 : Int) ^ 56 = 72057594037927936 := by norm_num
theorem two_pow_63_int : (2 : Int) ^ 63 = 9223372036854775808 := by norm_num
theorem two_pow_64_int : (2 : Int) ^ 64 = 18446744073709551616 := by norm_num
theorem two_pow_55_nat : (2 : Nat) ^ 55 = 36028797018963968 := by norm_num
theorem two_pow_54_nat : (2 : Nat) ^ 54 = 18014398509481984 := by norm_num

theorem dataFromRef_innerMut_none (ptr : Nat) :
    dataInnerMut (dataFromRef ptr) = none := by
  unfold dataInnerMut dataFromRef dataFromRaw immutBitPattern i64wrap dataIntoRaw
  simp only [two_pow_55_int, two_pow_56_int, two_pow_63_int, two_pow_64_int,
    two_pow_55_nat]
  rw [if_neg]
  split
  · omega
  · omega

theorem makeReadOnly_innerMut_none (d : Nat) :
    dataInnerMut (makeReadOnly d) = none := by
  unfold dataInnerMut makeReadOnly dataIntoRaw
  split
  · split
    · rw [if_neg]; omega
    · rw [if_neg]; omega
  · split
    · rw [if_neg]; omega
    · rw [if_neg]; omega

theorem dataFromMutRef_innerMut (ptr : Nat) (hptr : ptr < 2 ^ 54) :
    dataInnerMut (dataFromMutRef ptr) = some (ptr : Int) := by
  have hval : dataIntoRaw (dataFromRaw (mutBitPattern ptr)) = 2 * ptr := by
    unfold dataIntoRaw dataFromRaw mutBitPattern i64wrap
    simp only [two_pow_55_int, two_pow_56_int, two_pow_63_int, two_pow_64_int,
      two_pow_55_nat, two_pow_54_nat] at hptr ⊢
    rw [if_pos (by omega)]
    omega
  have hdiv : Int.fdiv (2 * (ptr : Int)) 2 = ptr := by
    rw [Int.fdiv_eq_ediv _ (by norm_num)]
    omega
  unfold dataInnerMut dataFromMutRef
  rw [hval, if_pos (by omega), hdiv]

/-! ### Claim theorems -/

/-- C1 counterexample: the stated round trip fails on the full i64 range.
At x equal to 2 to the 55 the left shift by the 8-bit tag size overflows
the 64-bit word, and the value reads back as the negation. -/
theorem C1_counterexample :
    intRoundTrip (2 ^ 55) = -(2 ^ 55) ∧ ((2 : Int) ^ 55) ≠ -(2 ^ 55) := by
  constructor
  · decide
  · decide

/-- C1 (amended): the round trip through the value word is the identity for
booleans, for boxed strings and floats (at any arena below the pointer
range), and for integers in the 56-bit range -(2 to the 55) up to
2 to the 55 minus 1; outside that range the top 8 bits are lost. -/
theorem C1_roundtrip_amended :
    (∀ i : Int, -(2 ^ 55) ≤ i → i < 2 ^ 55 → intRoundTrip i = i) ∧
    (∀ b : Bool, boolRoundTrip b = b) ∧
    (∀ (h : List String) (s : String), h.length < 2 ^ 55 →
      ptrRoundTrip h s 6 = some s) ∧
    (∀ (h : List Nat) (f : Nat), h.length < 2 ^ 55 →
      ptrRoundTrip h f 2 = some f) := by
  refine ⟨?_, boolRoundTrip_id, ?_, ?_⟩
  · intro i h1 h2
    exact intRoundTrip_in_range h1 h2
  · intro h s hl
    exact ptrRoundTrip_id h s 6 hl (by norm_num)
  · intro h f hl
    exact ptrRoundTrip_id h f 2 hl (by norm_num)

/-- Witness for C1_roundtrip_amended at concrete inputs. -/
theorem C1_roundtrip_witness :
    intRoundTrip 12345 = 12345 ∧ boolRoundTrip true = true ∧
    ptrRoundTrip ([] : List String) "foo" 6 = some "foo" ∧
    ptrRoundTrip ([] : List Nat) 99 2 = some 99 :=
  ⟨C1_roundtrip_amended.1 12345 (by norm_num) (by norm_num),
   C1_roundtrip_amended.2.1 true,
   C1_roundtrip_amended.2.2.1 [] "foo" (by norm_num),
   C1_roundtrip_amended.2.2.2 [] 99 (by norm_num)⟩

/-- One-step unfolding of the fuel-indexed evaluator. -/
theorem run_zero (C : Collab) (req : Req) (st : GState) :
    run C 0 req st = (.error .fuel, st) := rfl

theorem run_succ (C : Collab) (n : Nat) (req : Req) (st : GState) :
    run C (n + 1) req st = runStep C (run C n) req st := rfl

/-- Helper for C2: the bindings a parallel let has already collected have
no effect on the remaining initializers; the collected list is only
appended to the result.  This is the parallel-binding property: no
initializer of a let ever sees a binding introduced earlier in the same
let. -/
theorem letBindParallelLoop_acc (C : Collab) :
    ∀ (n : Nat) (bs : List Obj) (outer acc : List Nat) (st : GState),
      letBindParallelLoop C n bs outer acc st =
        ((letBindParallelLoop C n bs outer [] st).1.map (fun l => l ++ acc),
         (letBindParallelLoop C n bs outer [] st).2) := by
  intro n
  induction n with
  | zero => intro bs outer acc st; rfl
  | succ n ih =>
      intro bs outer acc st
      cases bs with
      | nil => rfl
      | cons b rest =>
          cases b with
          | consV a =>
              simp only [letBindParallelLoop, run_succ, runStep]
              rcases hv : run C n (.rLetValue a outer) st with ⟨er, st2⟩
              cases er with
              | error e => rfl
              | ok pay =>
                  cases pay with
                  | pAddr addr =>
                      simp only [asAddr]
                      have h1 := ih rest outer (addr :: acc) st2
                      have h2 := ih rest outer [addr] st2
                      simp only [letBindParallelLoop] at h1 h2
                      rw [h1, h2]
                      rcases hr : asAddrs (run C n (.rLetParallelLoop rest outer []) st2)
                        with ⟨er2, st3⟩
                      cases er2 with
                      | error e => rfl
                      | ok l => simp [Except.map, List.append_assoc]
                  | pObj v => rfl
                  | pObjs vs => rfl
                  | pAddrs l => rfl
          | symV s =>
              simp only [letBindParallelLoop, run_succ, runStep, alloc]
              have h1 := ih rest outer (st.heap.length :: acc)
                { st with heap := st.heap ++ [{ car := .symV s, cdr := .nilV, mutFlag := true }] }
              have h2 := ih rest outer [st.heap.length]
                { st with heap := st.heap ++ [{ car := .symV s, cdr := .nilV, mutFlag := true }] }
              simp only [letBindParallelLoop] at h1 h2
              rw [h1, h2]
              rcases hr : asAddrs (run C n (.rLetParallelLoop rest outer [])
                  { st with heap := st.heap ++ [{ car := .symV s, cdr := .nilV, mutFlag := true }] })
                with ⟨er2, st3⟩
              cases er2 with
              | error e => rfl
              | ok l => simp [Except.map, List.append_assoc]
          | intV m => rfl
          | strV s2 => rfl
          | fltV p => rfl
          | tru => rfl
          | nilV => rfl
          | lispFnV i => rfl
          | subrFnV i => rfl

/-- C2: in let every initializer is evaluated in the outer scope (the
bindings collected so far cannot influence it), while let* threads each
binding before the next initializer; concretely, the let* example yields 1,
the let example is a void-variable error for x in an empty environment,
and resolves an outer global x when one exists. -/
theorem C2_let_scoping :
    (∀ (C : Collab) (n : Nat) (bs : List Obj) (outer acc : List Nat) (st : GState),
      letBindParallelLoop C n bs outer acc st =
        ((letBindParallelLoop C n bs outer [] st).1.map (fun l => l ++ acc),
         (letBindParallelLoop C n bs outer [] st).2)) ∧
    (evalForm noCollab 100 (c2prog true).1 [] (c2prog true).2).1 = .ok (.intV 1) ∧
    (evalForm noCollab 100 (c2prog false).1 [] (c2prog false).2).1 =
      .error (.voidVariable "x") ∧
    (evalForm noCollab 100 (c2prog false).1 []
        (globalInsert (c2prog false).2 "x" (.intV 5))).1 = .ok (.intV 5) := by
  refine ⟨fun C => letBindParallelLoop_acc C, ?_, ?_, ?_⟩
  · rfl
  · rfl
  · rfl

/-! ### Heap-growth and binder lemmas (claim C3) -/

theorem heapExt_refl (st : GState) : HeapExt st st := ⟨[], by simp⟩

theorem heapExt_trans {s1 s2 s3 : GState} (h1 : HeapExt s1 s2)
    (h2 : HeapExt s2 s3) : HeapExt s1 s3 := by
  obtain ⟨e1, he1⟩ := h1
  obtain ⟨e2, he2⟩ := h2
  exact ⟨e1 ++ e2, by rw [he2, he1, List.append_assoc]⟩

theorem heapExt_alloc (st : GState) (c : Cell) : HeapExt st (alloc st c).2 :=
  ⟨[c], rfl⟩

theorem heapExt_len {s1 s2 : GState} (h : HeapExt s1 s2) :
    s1.heap.length ≤ s2.heap.length := by
  obtain ⟨e, he⟩ := h
  rw [he, List.length_append]
  omega

theorem getCell_heapExt {s1 s2 : GState} (h : HeapExt s1 s2) {a : Nat} {c : Cell}
    (hc : s1.heap[a]? = some c) : s2.heap[a]? = some c := by
  obtain ⟨e, he⟩ := h
  have hlt : a < s1.heap.length := by
    rcases List.getElem?_eq_some_iff.mp hc with ⟨h1, -⟩
    exact h1
  rw [he, List.getElem?_append_left hlt]
  exact hc

theorem readPair_heapExt {s1 s2 : GState} (h : HeapExt s1 s2) {a : Nat}
    {p : Obj × Obj} (hp : readPair s1 a = some p) : readPair s2 a = some p := by
  unfold readPair at hp ⊢
  cases hc : s1.heap[a]? with
  | none => rw [hc] at hp; cases hp
  | some c =>
      rw [hc] at hp
      rw [getCell_heapExt h hc]
      exact hp

theorem lookup_append_self (h : List Cell) (c : Cell) :
    (h ++ [c])[h.length]? = some c := List.getElem?_concat_length h c

theorem alloc_lookup_self (st : GState) (c : Cell) :
    (alloc st c).2.heap[st.heap.length]? = some c := by
  simpa [alloc] using lookup_append_self st.heap c

theorem readPair_alloc_self (st : GState) (c : Cell) :
    readPair (alloc st c).2 st.heap.length = some (c.car, c.cdr) := by
  unfold readPair
  rw [alloc_lookup_self]

theorem asListAux_heapExt {s1 s2 : GState} (h : HeapExt s1 s2) :
    ∀ (n : Nat) (o : Obj) (l : List Obj),
      asListAux s1 n o = .ok l → asListAux s2 n o = .ok l := by
  intro n
  induction n with
  | zero => intro o l hl; exact Except.noConfusion hl
  | succ n ih =>
      intro o l hl
      cases o with
      | nilV => exact hl
      | consV a =>
          simp only [asListAux] at hl ⊢
          cases hc : s1.heap[a]? with
          | none => rw [hc] at hl; exact Except.noConfusion hl
          | some c =>
              rw [hc] at hl
              rw [getCell_heapExt h hc]
              dsimp only at hl ⊢
              cases hrec : asListAux s1 n c.cdr with
              | error e => rw [hrec] at hl; exact Except.noConfusion hl
              | ok l2 =>
                  rw [hrec] at hl
                  rw [ih _ _ hrec]
                  exact hl
      | intV m => exact hl
      | symV s => exact hl
      | strV s => exact hl
      | fltV p => exact hl
      | tru => exact hl
      | lispFnV i => exact hl
      | subrFnV i => exact hl

theorem asListAux_le {st : GState} :
    ∀ (n m : Nat), n ≤ m →
      ∀ (o : Obj) (l : List Obj),
        asListAux st n o = .ok l → asListAux st m o = .ok l := by
  intro n
  induction n with
  | zero => intro m hm o l hl; exact Except.noConfusion hl
  | succ n ih =>
      intro m hm o l hl
      cases m with
      | zero => omega
      | succ m =>
          have hnm : n ≤ m := by omega
          cases o with
          | nilV => exact hl
          | consV a =>
              simp only [asListAux] at hl ⊢
              cases hc : st.heap[a]? with
              | none => rw [hc] at hl; exact hl
              | some c =>
                  rw [hc] at hl
                  dsimp only at hl ⊢
                  cases hrec : asListAux st n c.cdr with
                  | error e => rw [hrec] at hl; exact Except.noConfusion hl
                  | ok l2 =>
                      rw [hrec] at hl
                      rw [ih m hnm _ _ hrec]
                      exact hl
          | intV m2 => exact hl
          | symV s => exact hl
          | strV s => exact hl
          | fltV p => exact hl
          | tru => exact hl
          | lispFnV i => exact hl
          | subrFnV i => exact hl

theorem asList_heapExt {s1 s2 : GState} (h : HeapExt s1 s2) {o : Obj}
    {l : List Obj} (hs : asList s1 o = .ok l) : asList s2 o = .ok l := by
  unfold asList at hs ⊢
  have h1 := asListAux_heapExt h _ _ _ hs
  exact asListAux_le _ _ (by have := heapExt_len h; omega) _ _ h1

theorem sliceIntoList_spec :
    ∀ (xs : List Obj) (st : GState),
      HeapExt st (sliceIntoList st xs none).2 ∧
      asList (sliceIntoList st xs none).2 (sliceIntoList st xs none).1 = .ok xs := by
  intro xs
  induction xs with
  | nil =>
      intro st
      exact ⟨heapExt_refl st, rfl⟩
  | cons x xs ih =>
      intro st
      obtain ⟨hext, hlist⟩ := ih st
      rcases hp : sliceIntoList st xs none with ⟨r, st2⟩
      rw [hp] at hext hlist
      simp only [sliceIntoList, hp, alloc]
      constructor
      · exact heapExt_trans hext ⟨[⟨x, r, true⟩], rfl⟩
      · unfold asList
        have hlen : ({ st2 with heap := st2.heap ++ [⟨x, r, true⟩] } : GState).heap.length
            = st2.heap.length + 1 := by simp
        rw [hlen]
        simp only [asListAux]
        rw [show ({ st2 with heap := st2.heap ++ [⟨x, r, true⟩] } : GState).heap[st2.heap.length]?
            = some ⟨x, r, true⟩ from lookup_append_self st2.heap ⟨x, r, true⟩]
        dsimp only
        have htr := @asListAux_heapExt st2 { st2 with heap := st2.heap ++ [⟨x, r, true⟩] }
          ⟨[⟨x, r, true⟩], rfl⟩ (st2.heap.length + 1) r xs hlist
        rw [htr]

theorem pushReqArgs_spec :
    ∀ (req : List String) (args : List Obj) (vars : List Nat) (st : GState),
      req.length ≤ args.length →
      ∃ (reqA : List Nat) (st2 : GState),
        pushReqArgs req args vars st =
          (.ok (reqA.reverse ++ vars, args.drop req.length), st2) ∧
        HeapExt st st2 ∧
        (∀ a ∈ reqA, st.heap.length ≤ a) ∧
        List.Forall₂ (fun (nv : String × Obj) (p : Nat) =>
          readPair st2 p = some (.symV nv.1, nv.2))
          (req.zip (args.take req.length)) reqA ∧
        (∀ a ∈ reqA, ∃ c, st2.heap[a]? = some c ∧ c.mutFlag = true) := by
  intro req
  induction req with
  | nil =>
      intro args vars st _
      exact ⟨[], st, rfl, heapExt_refl st, by simp, by simp, by simp⟩
  | cons nm nms ih =>
      intro args vars st hle
      cases args with
      | nil => simp at hle
      | cons v argv =>
          have hle2 : nms.length ≤ argv.length := by
            simp at hle; omega
          obtain ⟨reqA, st2, heq, hext, hfresh, hfa, hmut⟩ :=
            ih argv (st.heap.length :: vars) (alloc st ⟨.symV nm, v, true⟩).2 hle2
          simp only [alloc] at heq hext hfresh
          refine ⟨st.heap.length :: reqA, st2, ?_, ?_, ?_, ?_, ?_⟩
          · simp only [pushReqArgs, alloc, heq]
            simp [List.append_assoc]
          · exact heapExt_trans (heapExt_alloc st _) hext
          · intro a ha
            rcases List.mem_cons.mp ha with rfl | ha2
            · omega
            · have h1 := hfresh a ha2
              try simp at h1
              omega
          · simp only [List.length_cons, List.zip_cons_cons, List.take_succ_cons]
            refine List.Forall₂.cons ?_ hfa
            exact readPair_heapExt hext (readPair_alloc_self st ⟨.symV nm, v, true⟩)
          · intro a ha
            rcases List.mem_cons.mp ha with rfl | ha2
            · exact ⟨⟨.symV nm, v, true⟩,
                getCell_heapExt hext (alloc_lookup_self st _), rfl⟩
            · exact hmut a ha2

theorem pushOptArgs_spec :
    ∀ (opt : List String) (rem : List Obj) (vars : List Nat) (st : GState),
      ∃ (optA : List Nat) (st2 : GState),
        pushOptArgs opt rem vars st =
          (optA.reverse ++ vars, rem.drop opt.length, st2) ∧
        HeapExt st st2 ∧
        (∀ a ∈ optA, st.heap.length ≤ a) ∧
        List.Forall₂ (fun (nv : String × Obj) (p : Nat) =>
          readPair st2 p = some (.symV nv.1, nv.2))
          (opt.zip (padNils rem opt.length)) optA ∧
        (∀ a ∈ optA, ∃ c, st2.heap[a]? = some c ∧ c.mutFlag = true) := by
  intro opt
  induction opt with
  | nil =>
      intro rem vars st
      exact ⟨[], st, rfl, heapExt_refl st, by simp, by simp [padNils], by simp⟩
  | cons nm nms ih =>
      intro rem vars st
      cases rem with
      | cons v argv =>
          obtain ⟨optA, st2, heq, hext, hfresh, hfa, hmut⟩ :=
            ih argv (st.heap.length :: vars) (alloc st ⟨.symV nm, v, true⟩).2
          simp only [alloc] at heq hext hfresh
          refine ⟨st.heap.length :: optA, st2, ?_, ?_, ?_, ?_, ?_⟩
          · simp only [pushOptArgs, alloc, heq]
            simp [List.append_assoc]
          · exact heapExt_trans (heapExt_alloc st _) hext
          · intro a ha
            rcases List.mem_cons.mp ha with rfl | ha2
            · omega
            · have h1 := hfresh a ha2
              try simp at h1
              omega
          · have hpad : padNils (v :: argv) (nms.length + 1)
                = v :: padNils argv nms.length := by
              simp [padNils, List.take_succ_cons, Nat.succ_sub_succ]
            simp only [List.length_cons, hpad, List.zip_cons_cons]
            refine List.Forall₂.cons ?_ hfa
            exact readPair_heapExt hext (readPair_alloc_self st ⟨.symV nm, v, true⟩)
          · intro a ha
            rcases List.mem_cons.mp ha with rfl | ha2
            · exact ⟨⟨.symV nm, v, true⟩,
                getCell_heapExt hext (alloc_lookup_self st _), rfl⟩
            · exact hmut a ha2
      | nil =>
          obtain ⟨optA, st2, heq, hext, hfresh, hfa, hmut⟩ :=
            ih [] (st.heap.length :: vars) (alloc st ⟨.symV nm, .nilV, true⟩).2
          simp only [alloc] at heq hext hfresh
          refine ⟨st.heap.length :: optA, st2, ?_, ?_, ?_, ?_, ?_⟩
          · simp only [pushOptArgs, alloc, heq]
            simp [List.append_assoc]
          · exact heapExt_trans (heapExt_alloc st _) hext
          · intro a ha
            rcases List.mem_cons.mp ha with rfl | ha2
            · omega
            · have h1 := hfresh a ha2
              try simp at h1
              omega
          · have hpad : padNils ([] : List Obj) (nms.length + 1)
                = Obj.nilV :: padNils [] nms.length := by
              simp [padNils, List.replicate_succ]
            simp only [List.length_cons, hpad, List.zip_cons_cons]
            refine List.Forall₂.cons ?_ hfa
            exact readPair_heapExt hext (readPair_alloc_self st ⟨.symV nm, .nilV, true⟩)
          · intro a ha
            rcases List.mem_cons.mp ha with rfl | ha2
            · exact ⟨⟨.symV nm, .nilV, true⟩,
                getCell_heapExt hext (alloc_lookup_self st _), rfl⟩
            · exact hmut a ha2

/-- C3 counterexample: the arity counters of bind_args are u16, so they
wrap at 2^16.  With 65536 required parameters and no arguments the
claimed ArgCount(required, actual) error is not what the program does:
the truncated check (0 >= 0) passes and the required loop's
arg_values.next().unwrap() panics instead. -/
theorem C3_counterexample :
    bindParsed (List.replicate 65536 "a") [] none [] [] emptyState =
      (.error (.panicked "unwrap of missing argument"), emptyState) ∧
    (bindParsed (List.replicate 65536 "a") [] none [] [] emptyState).1 ≠
      .error (.argCount (List.replicate 65536 "a").length
        ([] : List Obj).length) := by
  have hb : bindParsed (List.replicate 65536 "a") [] none [] [] emptyState =
      (.error (.panicked "unwrap of missing argument"), emptyState) := by
    unfold bindParsed
    rw [if_neg (by simp only [List.length_replicate, List.length_nil]; omega)]
    rw [show (65536 : Nat) = 65535 + 1 from rfl, List.replicate_succ]
    simp only [pushReqArgs]
  refine ⟨hb, ?_⟩
  rw [hb]
  simp only [List.length_replicate, List.length_nil]
  intro h
  exact absurd h (by decide)

/-- C3 (amended to the u16 range of the source's arity counters): for
parameter lists and argument vectors shorter than 2^16 — where the u16
counts of bind_args are exact — too few arguments for the required
parameters is the arity error (required, actual); without a rest
parameter, more arguments than required plus optional is the arity error
(required+optional, actual); otherwise binding succeeds, pushes only
freshly allocated cells on top of the given stack, binds required and
optional parameters positionally with missing optionals bound to nil, and
binds a rest parameter to a freshly built list of exactly the remaining
arguments. -/
theorem C3_bind_args_amended :
    ∀ (req opt : List String) (restName : Option String) (args : List Obj)
      (vars : List Nat) (st : GState),
      args.length < 65536 → req.length + opt.length < 65536 →
      (args.length < req.length →
        bindParsed req opt restName args vars st =
          (.error (.argCount req.length args.length), st)) ∧
      (restName = none → req.length ≤ args.length →
        req.length + opt.length < args.length →
        (bindParsed req opt restName args vars st).1 =
          .error (.argCount (req.length + opt.length) args.length)) ∧
      (req.length ≤ args.length →
        (restName = none → args.length ≤ req.length + opt.length) →
        ∃ (newAddrs : List Nat) (st2 : GState),
          bindParsed req opt restName args vars st = (.ok (newAddrs ++ vars), st2) ∧
          (∀ a ∈ newAddrs, st.heap.length ≤ a) ∧
          BindSpec st2 newAddrs req opt restName args) := by
  intro req opt restName args vars st h16 h16b
  have hA : args.length % 65536 = args.length := Nat.mod_eq_of_lt h16
  have hR : req.length % 65536 = req.length := Nat.mod_eq_of_lt (by omega)
  have hO : opt.length % 65536 = opt.length := Nat.mod_eq_of_lt (by omega)
  have hRO : (req.length + opt.length) % 65536 = req.length + opt.length :=
    Nat.mod_eq_of_lt h16b
  refine ⟨?_, ?_, ?_⟩
  · intro hlt
    unfold bindParsed
    rw [hA, hR, hO, hRO]
    rw [if_pos hlt]
  · intro hrest hle hlt
    subst hrest
    unfold bindParsed
    rw [hA, hR, hO, hRO]
    rw [if_neg (by omega)]
    obtain ⟨reqA, st2, heqR, hextR, hfreshR, hfaR, hmutR⟩ :=
      pushReqArgs_spec req args vars st hle
    rw [heqR]
    dsimp only
    obtain ⟨optA, st3, heqO, hextO, hfreshO, hfaO, hmutO⟩ :=
      pushOptArgs_spec opt (args.drop req.length) (reqA.reverse ++ vars) st2
    rw [heqO]
    dsimp only
    rw [List.drop_drop]
    cases hr2 : args.drop (req.length + opt.length) with
    | nil =>
        have := List.length_drop (req.length + opt.length) args
        rw [hr2] at this
        simp at this
        omega
    | cons y ys =>
        rw [show (req.length + opt.length) = (opt.length + req.length) from by omega] at hr2
        simp [hr2]
  · intro hle hrest
    unfold bindParsed
    rw [hA, hR, hO, hRO]
    rw [if_neg (by omega)]
    obtain ⟨reqA, st2, heqR, hextR, hfreshR, hfaR, hmutR⟩ :=
      pushReqArgs_spec req args vars st hle
    rw [heqR]
    dsimp only
    obtain ⟨optA, st3, heqO, hextO, hfreshO, hfaO, hmutO⟩ :=
      pushOptArgs_spec opt (args.drop req.length) (reqA.reverse ++ vars) st2
    rw [heqO]
    dsimp only
    cases restName with
    | none =>
        have hempty : (args.drop req.length).drop opt.length = [] := by
          rw [List.drop_drop]
          apply List.drop_eq_nil_of_le
          have := hrest rfl
          simp
          omega
        rw [hempty]
        refine ⟨optA.reverse ++ reqA.reverse, st3, ?_, ?_, ?_⟩
        · simp [List.append_assoc]
        · intro a ha
          rcases List.mem_append.mp ha with h1 | h2
          · have := hfreshO a (List.mem_reverse.mp h1)
            have := heapExt_len hextR
            omega
          · exact hfreshR a (List.mem_reverse.mp h2)
        · refine ⟨reqA, optA, [], by simp, ?_, ?_, rfl⟩
          · exact hfaR.imp (fun nv p hp => readPair_heapExt hextO hp)
          · exact hfaO
    | some r =>
        rcases hs : sliceIntoList st3 ((args.drop req.length).drop opt.length) none
          with ⟨lst, st4⟩
        have hslice := sliceIntoList_spec ((args.drop req.length).drop opt.length) st3
        rw [hs] at hslice
        obtain ⟨hextS, hlistS⟩ := hslice
        dsimp only at hextS hlistS
        simp only [hs, alloc]
        refine ⟨st4.heap.length :: (optA.reverse ++ reqA.reverse),
          { st4 with heap := st4.heap ++ [⟨.symV r, lst, true⟩] }, ?_, ?_, ?_⟩
        · simp [List.append_assoc]
        · intro a ha
          rcases List.mem_cons.mp ha with rfl | ha2
          · have h1 := heapExt_len hextR
            have h2 := heapExt_len hextO
            have h3 := heapExt_len hextS
            omega
          · rcases List.mem_append.mp ha2 with h1 | h2
            · have := hfreshO a (List.mem_reverse.mp h1)
              have := heapExt_len hextR
              omega
            · exact hfreshR a (List.mem_reverse.mp h2)
        · have hext4 : HeapExt st3 ({ st4 with heap := st4.heap ++ [⟨.symV r, lst, true⟩] } : GState) :=
            heapExt_trans hextS ⟨[⟨.symV r, lst, true⟩], rfl⟩
          refine ⟨reqA, optA, [st4.heap.length], rfl, ?_, ?_, ?_⟩
          · exact hfaR.imp (fun nv p hp =>
              readPair_heapExt (heapExt_trans hextO hext4) hp)
          · exact hfaO.imp (fun nv p hp => readPair_heapExt hext4 hp)
          · refine ⟨st4.heap.length, lst, rfl, ?_, ?_⟩
            · unfold readPair
              rw [lookup_append_self]
            · have h1 : asList ({ st4 with heap := st4.heap ++ [⟨.symV r, lst, true⟩] } : GState) lst
                  = .ok ((args.drop req.length).drop opt.length) :=
                asList_heapExt ⟨[⟨.symV r, lst, true⟩], rfl⟩ hlistS
              rw [List.drop_drop] at h1
              exact h1

/-- Witness for C3 at a concrete parameter list (x &optional y &rest z)
with a single argument. -/
theorem C3_bind_args_witness :
    ∃ (newAddrs : List Nat) (st2 : GState),
      bindParsed ["x"] ["y"] (some "z") [.intV 1] [] emptyState =
        (.ok (newAddrs ++ []), st2) ∧
      (∀ a ∈ newAddrs, emptyState.heap.length ≤ a) ∧
      BindSpec st2 newAddrs ["x"] ["y"] (some "z") [.intV 1] :=
  (C3_bind_args_amended ["x"] ["y"] (some "z") [.intV 1] [] emptyState
      (by decide) (by decide)).2.2
    (by decide) (fun h => by cases h)

/-! ### Mutability-flag preservation (claim C9) -/

theorem mutPreserved_refl (st : GState) : MutPreserved st st :=
  fun _ c h => ⟨c, h, rfl⟩

theorem mutPreserved_trans {s1 s2 s3 : GState} (h1 : MutPreserved s1 s2)
    (h2 : MutPreserved s2 s3) : MutPreserved s1 s3 := by
  intro a c hc
  obtain ⟨c2, hc2, hf2⟩ := h1 a c hc
  obtain ⟨c3, hc3, hf3⟩ := h2 a c2 hc2
  exact ⟨c3, hc3, by rw [hf3, hf2]⟩

theorem mutPreserved_of_heapExt {s1 s2 : GState} (h : HeapExt s1 s2) :
    MutPreserved s1 s2 :=
  fun _ c hc => ⟨c, getCell_heapExt h hc, rfl⟩

theorem asObj_snd (r : (Except Err Pay) × GState) : (asObj r).2 = r.2 := by
  rcases r with ⟨er, st⟩
  cases er with
  | error e => rfl
  | ok p => cases p <;> rfl

theorem asObjs_snd (r : (Except Err Pay) × GState) : (asObjs r).2 = r.2 := by
  rcases r with ⟨er, st⟩
  cases er with
  | error e => rfl
  | ok p => cases p <;> rfl

theorem asAddrs_snd (r : (Except Err Pay) × GState) : (asAddrs r).2 = r.2 := by
  rcases r with ⟨er, st⟩
  cases er with
  | error e => rfl
  | ok p => cases p <;> rfl

theorem asAddr_snd (r : (Except Err Pay) × GState) : (asAddr r).2 = r.2 := by
  rcases r with ⟨er, st⟩
  cases er with
  | error e => rfl
  | ok p => cases p <;> rfl

theorem wrapObj_snd (r : (Except Err Obj) × GState) : (wrapObj r).2 = r.2 := by
  rcases r with ⟨er, st⟩
  cases er <;> rfl

theorem mutPreserved_setCdrH (st : GState) (a : Nat) (v : Obj) :
    MutPreserved st (setCdrH st a v).2 := by
  unfold setCdrH
  cases hc : st.heap[a]? with
  | none => exact mutPreserved_refl st
  | some c =>
      dsimp only
      by_cases hmf : c.mutFlag = true
      · rw [if_pos hmf]
        intro i ci hci
        by_cases hia : a = i
        · subst hia
          have hcc : ci = c := by
            rw [hc] at hci
            injection hci with h
            exact h.symm
          have hlen : a < st.heap.length := (List.getElem?_eq_some_iff.mp hc).1
          refine ⟨{ c with cdr := v }, ?_, ?_⟩
          · show (st.heap.set a { c with cdr := v })[a]? = _
            rw [List.getElem?_set_self (by simpa using hlen)]
          · rw [hcc]
        · refine ⟨ci, ?_, rfl⟩
          show (st.heap.set a { c with cdr := v })[i]? = some ci
          rw [List.getElem?_set_ne hia]
          exact hci
      · rw [if_neg hmf]
        exact mutPreserved_refl st

theorem mutPreserved_varSet (st : GState) (vars : List Nat) (s : String)
    (v : Obj) : MutPreserved st (varSet st vars s v).2 := by
  unfold varSet
  cases hf : lexFindAddr st vars s with
  | none => exact mutPreserved_refl st
  | some a =>
      dsimp only
      rcases hs : setCdrH st a v with ⟨r, st2⟩
      have h := mutPreserved_setCdrH st a v
      rw [hs] at h
      cases r with
      | ok u => exact h
      | error e => exact h

theorem sliceIntoList_heapExt2 :
    ∀ (xs : List Obj) (st : GState) (tl : Option Obj),
      HeapExt st (sliceIntoList st xs tl).2 := by
  intro xs
  induction xs with
  | nil => intro st tl; exact heapExt_refl st
  | cons x xs ih =>
      intro st tl
      rcases hp : sliceIntoList st xs tl with ⟨r, st2⟩
      have h1 := ih st tl
      rw [hp] at h1
      simp only [sliceIntoList, hp, alloc]
      exact heapExt_trans h1 ⟨[⟨x, r, true⟩], rfl⟩

theorem pushReqArgs_heapExt :
    ∀ (req : List String) (args : List Obj) (vars : List Nat) (st : GState),
      HeapExt st (pushReqArgs req args vars st).2 := by
  intro req
  induction req with
  | nil => intro args vars st; exact heapExt_refl st
  | cons nm nms ih =>
      intro args vars st
      cases args with
      | nil => exact heapExt_refl st
      | cons v argv =>
          simp only [pushReqArgs, alloc]
          exact heapExt_trans ⟨[⟨.symV nm, v, true⟩], rfl⟩ (ih argv _ _)

theorem pushOptArgs_heapExt :
    ∀ (opt : List String) (rem : List Obj) (vars : List Nat) (st : GState),
      HeapExt st (pushOptArgs opt rem vars st).2.2 := by
  intro opt
  induction opt with
  | nil => intro rem vars st; exact heapExt_refl st
  | cons nm nms ih =>
      intro rem vars st
      cases rem with
      | nil =>
          simp only [pushOptArgs, alloc]
          exact heapExt_trans ⟨[⟨.symV nm, .nilV, true⟩], rfl⟩ (ih [] _ _)
      | cons v argv =>
          simp only [pushOptArgs, alloc]
          exact heapExt_trans ⟨[⟨.symV nm, v, true⟩], rfl⟩ (ih argv _ _)

theorem bindParsed_heapExt (req opt : List String) (restName : Option String)
    (args : List Obj) (vars : List Nat) (st : GState) :
    HeapExt st (bindParsed req opt restName args vars st).2 := by
  unfold bindParsed
  split
  · exact heapExt_refl st
  · rcases h1 : pushReqArgs req args vars st with ⟨r1, st2⟩
    have e1 := pushReqArgs_heapExt req args vars st
    rw [h1] at e1
    cases r1 with
    | error e => exact e1
    | ok p =>
        rcases p with ⟨vars1, rem1⟩
        dsimp only
        rcases h2 : pushOptArgs opt rem1 vars1 st2 with ⟨vars2, rem2, st3⟩
        have e2 := pushOptArgs_heapExt opt rem1 vars1 st2
        rw [h2] at e2
        have e12 : HeapExt st st3 := heapExt_trans e1 e2
        dsimp only
        cases restName with
        | none =>
            dsimp only
            split
            · exact e12
            · exact e12
        | some r =>
            dsimp only
            rcases h3 : sliceIntoList st3 rem2 none with ⟨lst, st4⟩
            have e3 := sliceIntoList_heapExt2 rem2 st3 none
            rw [h3] at e3
            simp only [alloc]
            exact heapExt_trans e12
              (heapExt_trans e3 ⟨[⟨.symV r, lst, true⟩], rfl⟩)

theorem bindArgs_heapExt (st : GState) (argList : Obj) (args : List Obj)
    (vars : List Nat) : HeapExt st (bindArgs st argList args vars).2 := by
  unfold bindArgs
  cases parseArgList st argList with
  | error e => exact heapExt_refl st
  | ok t =>
      rcases t with ⟨req, opt, restName⟩
      exact bindParsed_heapExt req opt restName args vars st

theorem bindVariables_heapExt (st : GState) (forms : List Obj)
    (args : List Obj) : HeapExt st (bindVariables st forms args).2 := by
  unfold bindVariables
  cases forms with
  | nil => exact heapExt_refl st
  | cons envForm rest =>
      dsimp only
      cases hp : parseClosureEnv st envForm with
      | error e => exact heapExt_refl st
      | ok envAddrs =>
          dsimp only
          cases rest with
          | nil => exact heapExt_refl st
          | cons argList body =>
              dsimp only
              rcases hb : bindArgs st argList args envAddrs.reverse with ⟨r, st2⟩
              have e := bindArgs_heapExt st argList args envAddrs.reverse
              rw [hb] at e
              cases r with
              | error e2 => exact e
              | ok vars2 => exact e

theorem evalFunctionH_heapExt (st : GState) (vars : List Nat) (o : Obj) :
    HeapExt st (evalFunctionH st vars o).2 := by
  unfold evalFunctionH
  cases hal : asList st o with
  | error e => exact heapExt_refl st
  | ok l =>
      match l with
      | [] => exact heapExt_refl st
      | [x] =>
          dsimp only
          cases x with
          | consV a =>
              dsimp only
              cases hc : st.heap[a]? with
              | none => exact heapExt_refl st
              | some c =>
                  dsimp only
                  by_cases hl : (c.car == Obj.symV "lambda") = true
                  · rw [if_pos hl]
                    rcases ha : alloc st { car := .tru, cdr := .nilV, mutFlag := true }
                      with ⟨ta, st2⟩
                    have e1 := heapExt_alloc st
                      { car := .tru, cdr := .nilV, mutFlag := true }
                    rw [ha] at e1
                    dsimp only
                    rcases hs : sliceIntoList st2 (vars.reverse.map Obj.consV)
                        (some (.consV ta)) with ⟨envList, st3⟩
                    have e2 := sliceIntoList_heapExt2 (vars.reverse.map Obj.consV)
                      st2 (some (.consV ta))
                    rw [hs] at e2
                    dsimp only
                    rcases h3 : alloc st3 { car := envList, cdr := c.cdr, mutFlag := true }
                      with ⟨ea, st4⟩
                    have e3 := heapExt_alloc st3
                      { car := envList, cdr := c.cdr, mutFlag := true }
                    rw [h3] at e3
                    dsimp only
                    rcases h4 : alloc st4
                        { car := .symV "closure", cdr := .consV ea, mutFlag := true }
                      with ⟨ca, st5⟩
                    have e4 := heapExt_alloc st4
                      { car := .symV "closure", cdr := .consV ea, mutFlag := true }
                    rw [h4] at e4
                    dsimp only
                    exact heapExt_trans e1 (heapExt_trans e2 (heapExt_trans e3 e4))
                  · rw [if_neg hl]
                    exact heapExt_refl st
          | intV m => exact heapExt_refl st
          | symV s => exact heapExt_refl st
          | strV s => exact heapExt_refl st
          | fltV p => exact heapExt_refl st
          | tru => exact heapExt_refl st
          | nilV => exact heapExt_refl st
          | lispFnV i => exact heapExt_refl st
          | subrFnV i => exact heapExt_refl st
      | x :: y :: rest => exact heapExt_refl st

theorem letBindFinish_heapExt (st : GState) (nameObj : Obj) (v : Obj) :
    HeapExt st (letBindFinish st nameObj v).2 := by
  unfold letBindFinish
  cases toSym nameObj with
  | error e => exact heapExt_refl st
  | ok name =>
      simp only [alloc]
      exact ⟨[⟨.symV name, v, true⟩], rfl⟩

theorem mutSingleton (x v : Obj) :
    ∀ c ∈ [({ car := x, cdr := v, mutFlag := true } : Cell)], c.mutFlag = true := by
  intro c hc
  rw [List.mem_singleton.mp hc]

theorem extMut_refl (st : GState) : ExtMut st st :=
  ⟨[], by simp, by simp⟩

theorem extMut_trans {s1 s2 s3 : GState} (h1 : ExtMut s1 s2)
    (h2 : ExtMut s2 s3) : ExtMut s1 s3 := by
  obtain ⟨e1, q1, m1⟩ := h1
  obtain ⟨e2, q2, m2⟩ := h2
  refine ⟨e1 ++ e2, ?_, ?_⟩
  · rw [q2, q1, List.append_assoc]
  · intro c hc
    rcases List.mem_append.mp hc with h | h
    · exact m1 c h
    · exact m2 c h

theorem extMut_heapExt {s1 s2 : GState} (h : ExtMut s1 s2) : HeapExt s1 s2 := by
  obtain ⟨e, q, m⟩ := h
  exact ⟨e, q⟩

theorem extMut_alloc (st : GState) (c : Cell) (hm : c.mutFlag = true) :
    ExtMut st (alloc st c).2 := by
  refine ⟨[c], rfl, ?_⟩
  intro c2 hc2
  rw [List.mem_singleton.mp hc2]
  exact hm

/-- Every cell an ExtMut step added (at or beyond the old heap length) is
mutable. -/
theorem extMut_fresh {s1 s2 : GState} (h : ExtMut s1 s2) :
    ∀ a c, s2.heap[a]? = some c → s1.heap.length ≤ a → c.mutFlag = true := by
  obtain ⟨ext, q, m⟩ := h
  intro a c hc ha
  rw [q, List.getElem?_append_right ha] at hc
  exact m c (List.getElem?_mem hc)

theorem sliceIntoList_extMut :
    ∀ (xs : List Obj) (st : GState) (tl : Option Obj),
      ExtMut st (sliceIntoList st xs tl).2 := by
  intro xs
  induction xs with
  | nil => intro st tl; exact extMut_refl st
  | cons x xs ih =>
      intro st tl
      rcases hp : sliceIntoList st xs tl with ⟨r, st2⟩
      have h1 := ih st tl
      rw [hp] at h1
      simp only [sliceIntoList, hp, alloc]
      exact extMut_trans h1 ⟨[⟨x, r, true⟩], rfl, mutSingleton x r⟩

theorem pushReqArgs_extMut :
    ∀ (req : List String) (args : List Obj) (vars : List Nat) (st : GState),
      ExtMut st (pushReqArgs req args vars st).2 := by
  intro req
  induction req with
  | nil => intro args vars st; exact extMut_refl st
  | cons nm nms ih =>
      intro args vars st
      cases args with
      | nil => exact extMut_refl st
      | cons v argv =>
          simp only [pushReqArgs, alloc]
          exact extMut_trans ⟨[⟨.symV nm, v, true⟩], rfl, mutSingleton _ _⟩
            (ih argv _ _)

theorem pushOptArgs_extMut :
    ∀ (opt : List String) (rem : List Obj) (vars : List Nat) (st : GState),
      ExtMut st (pushOptArgs opt rem vars st).2.2 := by
  intro opt
  induction opt with
  | nil => intro rem vars st; exact extMut_refl st
  | cons nm nms ih =>
      intro rem vars st
      cases rem with
      | nil =>
          simp only [pushOptArgs, alloc]
          exact extMut_trans ⟨[⟨.symV nm, .nilV, true⟩], rfl, mutSingleton _ _⟩
            (ih [] _ _)
      | cons v argv =>
          simp only [pushOptArgs, alloc]
          exact extMut_trans ⟨[⟨.symV nm, v, true⟩], rfl, mutSingleton _ _⟩
            (ih argv _ _)

theorem bindParsed_extMut (req opt : List String) (restName : Option String)
    (args : List Obj) (vars : List Nat) (st : GState) :
    ExtMut st (bindParsed req opt restName args vars st).2 := by
  unfold bindParsed
  split
  · exact extMut_refl st
  · rcases h1 : pushReqArgs req args vars st with ⟨r1, st2⟩
    have e1 := pushReqArgs_extMut req args vars st
    rw [h1] at e1
    cases r1 with
    | error e => exact e1
    | ok p =>
        rcases p with ⟨vars1, rem1⟩
        dsimp only
        rcases h2 : pushOptArgs opt rem1 vars1 st2 with ⟨vars2, rem2, st3⟩
        have e2 := pushOptArgs_extMut opt rem1 vars1 st2
        rw [h2] at e2
        have e12 : ExtMut st st3 := extMut_trans e1 e2
        dsimp only
        cases restName with
        | none =>
            dsimp only
            split
            · exact e12
            · exact e12
        | some r =>
            dsimp only
            rcases h3 : sliceIntoList st3 rem2 none with ⟨lst, st4⟩
            have e3 := sliceIntoList_extMut rem2 st3 none
            rw [h3] at e3
            simp only [alloc]
            exact extMut_trans e12
              (extMut_trans e3 ⟨[⟨.symV r, lst, true⟩], rfl, mutSingleton _ _⟩)

theorem bindArgs_extMut (st : GState) (argList : Obj) (args : List Obj)
    (vars : List Nat) : ExtMut st (bindArgs st argList args vars).2 := by
  unfold bindArgs
  cases parseArgList st argList with
  | error e => exact extMut_refl st
  | ok t =>
      rcases t with ⟨req, opt, restName⟩
      exact bindParsed_extMut req opt restName args vars st

theorem bindVariables_extMut (st : GState) (forms : List Obj)
    (args : List Obj) : ExtMut st (bindVariables st forms args).2 := by
  unfold bindVariables
  cases forms with
  | nil => exact extMut_refl st
  | cons envForm rest =>
      dsimp only
      cases hp : parseClosureEnv st envForm with
      | error e => exact extMut_refl st
      | ok envAddrs =>
          dsimp only
          cases rest with
          | nil => exact extMut_refl st
          | cons argList body =>
              dsimp only
              rcases hb : bindArgs st argList args envAddrs.reverse with ⟨r, st2⟩
              have e := bindArgs_extMut st argList args envAddrs.reverse
              rw [hb] at e
              cases r with
              | error e2 => exact e
              | ok vars2 => exact e

/-- let_bind_value's allocation: the binding cell returned on success is
fresh (at the old heap length) and carries the mutable flag with the bound
value as its cdr. -/
theorem letBindFinish_fresh (st : GState) (nameObj v : Obj) (addr : Nat)
    (st2 : GState) (h : letBindFinish st nameObj v = (.ok addr, st2)) :
    st.heap.length = addr ∧
      ∃ c, st2.heap[addr]? = some c ∧ c.mutFlag = true ∧ c.cdr = v := by
  unfold letBindFinish at h
  cases ht : toSym nameObj with
  | error e =>
      rw [ht] at h
      exact absurd (congrArg Prod.fst h) (by simp)
  | ok name =>
      rw [ht] at h
      simp only [alloc] at h
      obtain ⟨h1, h2⟩ := Prod.mk.injEq .. ▸ h
      injection h1 with h1
      refine ⟨h1, { car := .symV name, cdr := v, mutFlag := true }, ?_, rfl, rfl⟩
      rw [← h2, ← h1]
      dsimp only
      rw [List.getElem?_append_right (Nat.le_refl _)]
      simp

/-- var_set on a lexically found mutable binding cell always succeeds with
the assigned value: the "env should be mutable" panic of set_cdr is
unreachable for such a cell. -/
theorem varSet_mutable_ok (st : GState) (vars : List Nat) (s : String)
    (v : Obj) (a : Nat) (hf : lexFindAddr st vars s = some a)
    (hm : ∃ c, st.heap[a]? = some c ∧ c.mutFlag = true) :
    (varSet st vars s v).1 = .ok v := by
  obtain ⟨c, hc, hmf⟩ := hm
  unfold varSet
  rw [hf]
  dsimp only
  unfold setCdrH
  rw [hc]
  dsimp only
  rw [if_pos hmf]

/-- The evaluator never changes the mutability flag of an existing cell:
at every fuel level and for every request, every cell of the incoming
state is still present at its address with the same flag afterwards
(provided the external collaborators preserve flags too).  The evaluator
only ever extends the heap with fresh cells and rewrites cdr fields of
mutable cells through set_cdr. -/
theorem run_mutPreserved (C : Collab) (hC : CollabMut C) :
    ∀ (n : Nat) (req : Req) (st : GState),
      MutPreserved st (run C n req st).2 := by
  obtain ⟨hC1, hC2, hC3⟩ := hC
  intro n
  induction n with
  | zero => intro req st; exact mutPreserved_refl st
  | succ n ih =>
      intro req st
      rw [run_succ]
      cases req with
      | rForm o vars =>
          simp only [runStep]
          cases o with
          | symV s =>
              dsimp only
              cases hv : varRef st vars s with
              | ok v => exact mutPreserved_refl st
              | error e => exact mutPreserved_refl st
          | consV a => exact ih _ st
          | intV m => exact mutPreserved_refl st
          | strV s => exact mutPreserved_refl st
          | fltV p => exact mutPreserved_refl st
          | tru => exact mutPreserved_refl st
          | nilV => exact mutPreserved_refl st
          | lispFnV i => exact mutPreserved_refl st
          | subrFnV i => exact mutPreserved_refl st
      | rSexp a vars =>
          simp only [runStep]
          cases hc : getCell st a with
          | none => exact mutPreserved_refl st
          | some c =>
              dsimp only
              cases hcar : c.car with
              | symV s =>
                  dsimp only
                  by_cases h1 : s = "quote"
                  · rw [if_pos h1, wrapObj_snd]
                    exact mutPreserved_refl st
                  rw [if_neg h1]
                  by_cases h2 : s = "let"
                  · rw [if_pos h2]
                    exact ih _ st
                  rw [if_neg h2]
                  by_cases h3 : s = "let*"
                  · rw [if_pos h3]
                    exact ih _ st
                  rw [if_neg h3]
                  by_cases h4 : s = "if"
                  · rw [if_pos h4]
                    exact ih _ st
                  rw [if_neg h4]
                  by_cases h5 : s = "and"
                  · rw [if_pos h5]
                    cases hal : asList st c.cdr with
                    | error e => exact mutPreserved_refl st
                    | ok l2 => exact ih _ st
                  rw [if_neg h5]
                  by_cases h6 : s = "or"
                  · rw [if_pos h6]
                    cases hal : asList st c.cdr with
                    | error e => exact mutPreserved_refl st
                    | ok l2 => exact ih _ st
                  rw [if_neg h6]
                  by_cases h7 : s = "cond"
                  · rw [if_pos h7]
                    cases hal : asList st c.cdr with
                    | error e => exact mutPreserved_refl st
                    | ok l2 => exact ih _ st
                  rw [if_neg h7]
                  by_cases h8 : s = "while"
                  · rw [if_pos h8]
                    cases hal : asList st c.cdr with
                    | error e => exact mutPreserved_refl st
                    | ok lw =>
                        cases lw with
                        | nil => exact mutPreserved_refl st
                        | cons condF body => exact ih _ st
                  rw [if_neg h8]
                  by_cases h9 : s = "progn"
                  · rw [if_pos h9]
                    cases hal : asList st c.cdr with
                    | error e => exact mutPreserved_refl st
                    | ok l2 => exact ih _ st
                  rw [if_neg h9]
                  by_cases h10 : s = "prog1"
                  · rw [if_pos h10]
                    cases hal : asList st c.cdr with
                    | error e => exact mutPreserved_refl st
                    | ok l2 => exact ih _ st
                  rw [if_neg h10]
                  by_cases h11 : s = "prog2"
                  · rw [if_pos h11]
                    cases hal : asList st c.cdr with
                    | error e => exact mutPreserved_refl st
                    | ok l2 => exact ih _ st
                  rw [if_neg h11]
                  by_cases h12 : s = "setq"
                  · rw [if_pos h12]
                    cases hal : asList st c.cdr with
                    | error e => exact mutPreserved_refl st
                    | ok l2 => exact ih _ st
                  rw [if_neg h12]
                  by_cases h13 : s = "defvar"
                  · rw [if_pos h13]
                    exact ih _ st
                  rw [if_neg h13]
                  by_cases h14 : s = "defconst"
                  · rw [if_pos h14]
                    exact ih _ st
                  rw [if_neg h14]
                  by_cases h15 : s = "function"
                  · rw [if_pos h15, wrapObj_snd]
                    exact mutPreserved_of_heapExt
                      (evalFunctionH_heapExt st vars c.cdr)
                  rw [if_neg h15]
                  exact ih _ st
              | consV a2 => exact mutPreserved_refl st
              | intV m => exact mutPreserved_refl st
              | strV s => exact mutPreserved_refl st
              | fltV p => exact mutPreserved_refl st
              | tru => exact mutPreserved_refl st
              | nilV => exact mutPreserved_refl st
              | lispFnV i => exact mutPreserved_refl st
              | subrFnV i => exact mutPreserved_refl st
      | rAndLoop l last vars =>
          simp only [runStep]
          cases l with
          | nil => exact mutPreserved_refl st
          | cons f fs =>
              dsimp only
              rcases h1 : run C n (.rForm f vars) st with ⟨r1, s1⟩
              have m1 : MutPreserved st s1 := by
                have h := ih (.rForm f vars) st
                rw [h1] at h
                exact h
              cases r1 with
              | error e => exact m1
              | ok p =>
                  cases p with
                  | pObj v =>
                      dsimp only [asObj]
                      by_cases hv : (v == Obj.nilV) = true
                      · rw [if_pos hv]
                        exact m1
                      · rw [if_neg hv]
                        exact mutPreserved_trans m1 (ih _ s1)
                  | pObjs vs => exact m1
                  | pAddrs l2 => exact m1
                  | pAddr a2 => exact m1
      | rOrLoop l last vars =>
          simp only [runStep]
          cases l with
          | nil => exact mutPreserved_refl st
          | cons f fs =>
              dsimp only
              rcases h1 : run C n (.rForm f vars) st with ⟨r1, s1⟩
              have m1 : MutPreserved st s1 := by
                have h := ih (.rForm f vars) st
                rw [h1] at h
                exact h
              cases r1 with
              | error e => exact m1
              | ok p =>
                  cases p with
                  | pObj v =>
                      dsimp only [asObj]
                      by_cases hv : (v == Obj.nilV) = true
                      · rw [if_pos hv]
                        exact mutPreserved_trans m1 (ih _ s1)
                      · rw [if_neg hv]
                        exact m1
                  | pObjs vs => exact m1
                  | pAddrs l2 => exact m1
                  | pAddr a2 => exact m1
      | rCondLoop l last vars =>
          simp only [runStep]
          cases l with
          | nil => exact mutPreserved_refl st
          | cons form rest =>
              dsimp only
              cases hcl : asList st form with
              | error e => exact mutPreserved_refl st
              | ok clause =>
                  dsimp only
                  cases clause with
                  | nil =>
                      dsimp only
                      rcases h1 : run C n (.rForm Obj.nilV vars) st with ⟨r1, s1⟩
                      have m1 : MutPreserved st s1 := by
                        have h := ih (.rForm Obj.nilV vars) st
                        rw [h1] at h
                        exact h
                      cases r1 with
                      | error e => exact m1
                      | ok p =>
                          cases p with
                          | pObj v =>
                              dsimp only [asObj]
                              by_cases hv : (v == Obj.nilV) = true
                              · rw [if_pos hv]
                                exact mutPreserved_trans m1 (ih _ s1)
                              · rw [if_neg hv]
                                exact m1
                          | pObjs vs => exact m1
                          | pAddrs l2 => exact m1
                          | pAddr a2 => exact m1
                  | cons f cl =>
                      dsimp only
                      rcases h1 : run C n (.rForm f vars) st with ⟨r1, s1⟩
                      have m1 : MutPreserved st s1 := by
                        have h := ih (.rForm f vars) st
                        rw [h1] at h
                        exact h
                      cases r1 with
                      | error e => exact m1
                      | ok p =>
                          cases p with
                          | pObj v =>
                              dsimp only [asObj]
                              by_cases hv : (v == Obj.nilV) = true
                              · rw [if_pos hv]
                                exact mutPreserved_trans m1 (ih _ s1)
                              · rw [if_neg hv]
                                cases cl with
                                | nil => exact m1
                                | cons b bs =>
                                    exact mutPreserved_trans m1 (ih _ s1)
                          | pObjs vs => exact m1
                          | pAddrs l2 => exact m1
                          | pAddr a2 => exact m1
      | rWhile condF body vars =>
          simp only [runStep]
          rcases h1 : run C n (.rForm condF vars) st with ⟨r1, s1⟩
          have m1 : MutPreserved st s1 := by
            have h := ih (.rForm condF vars) st
            rw [h1] at h
            exact h
          cases r1 with
          | error e => exact m1
          | ok p =>
              cases p with
              | pObj v =>
                  dsimp only [asObj]
                  by_cases hv : (v == Obj.nilV) = true
                  · rw [if_pos hv]
                    exact m1
                  · rw [if_neg hv]
                    rcases h2 : run C n (.rProgn body .nilV vars) s1 with ⟨r2, s2⟩
                    have m2 : MutPreserved st s2 := by
                      have h := ih (.rProgn body .nilV vars) s1
                      rw [h2] at h
                      exact mutPreserved_trans m1 h
                    cases r2 with
                    | error e => exact m2
                    | ok p2 =>
                        cases p2 with
                        | pObj w =>
                            dsimp only [asObj]
                            exact mutPreserved_trans m2 (ih _ s2)
                        | pObjs vs => exact m2
                        | pAddrs l2 => exact m2
                        | pAddr a2 => exact m2
              | pObjs vs => exact m1
              | pAddrs l2 => exact m1
              | pAddr a2 => exact m1
      | rProgx l progNum count saved vars =>
          simp only [runStep]
          cases l with
          | nil =>
              dsimp only
              cases saved with
              | some v => exact mutPreserved_refl st
              | none => exact mutPreserved_refl st
          | cons f fs =>
              dsimp only
              rcases h1 : run C n (.rForm f vars) st with ⟨r1, s1⟩
              have m1 : MutPreserved st s1 := by
                have h := ih (.rForm f vars) st
                rw [h1] at h
                exact h
              cases r1 with
              | error e => exact m1
              | ok p =>
                  cases p with
                  | pObj v =>
                      dsimp only [asObj]
                      exact mutPreserved_trans m1 (ih _ s1)
                  | pObjs vs => exact m1
                  | pAddrs l2 => exact m1
                  | pAddr a2 => exact m1
      | rProgn l last vars =>
          simp only [runStep]
          cases l with
          | nil => exact mutPreserved_refl st
          | cons f fs =>
              dsimp only
              rcases h1 : run C n (.rForm f vars) st with ⟨r1, s1⟩
              have m1 : MutPreserved st s1 := by
                have h := ih (.rForm f vars) st
                rw [h1] at h
                exact h
              cases r1 with
              | error e => exact m1
              | ok p =>
                  cases p with
                  | pObj v =>
                      dsimp only [asObj]
                      exact mutPreserved_trans m1 (ih _ s1)
                  | pObjs vs => exact m1
                  | pAddrs l2 => exact m1
                  | pAddr a2 => exact m1
      | rIf o vars =>
          simp only [runStep]
          cases hl : asList st o with
          | error e => exact mutPreserved_refl st
          | ok l =>
              cases l with
              | nil => exact mutPreserved_refl st
              | cons condF l2 =>
                  cases l2 with
                  | nil => exact mutPreserved_refl st
                  | cons thenF elseFs =>
                      dsimp only
                      rcases h1 : run C n (.rForm condF vars) st with ⟨r1, s1⟩
                      have m1 : MutPreserved st s1 := by
                        have h := ih (.rForm condF vars) st
                        rw [h1] at h
                        exact h
                      cases r1 with
                      | error e => exact m1
                      | ok p =>
                          cases p with
                          | pObj v =>
                              dsimp only [asObj]
                              by_cases hv : (v == Obj.nilV) = true
                              · rw [if_pos hv]
                                exact mutPreserved_trans m1 (ih _ s1)
                              · rw [if_neg hv]
                                exact mutPreserved_trans m1 (ih _ s1)
                          | pObjs vs => exact m1
                          | pAddrs l2 => exact m1
                          | pAddr a2 => exact m1
      | rSetq l cnt last vars =>
          simp only [runStep]
          cases l with
          | nil =>
              dsimp only
              cases last with
              | some v => exact mutPreserved_refl st
              | none => exact mutPreserved_refl st
          | cons x l2 =>
              cases l2 with
              | nil => exact mutPreserved_refl st
              | cons v rest =>
                  dsimp only
                  cases x with
                  | symV s =>
                      dsimp only
                      rcases h1 : run C n (.rForm v vars) st with ⟨r1, s1⟩
                      have m1 : MutPreserved st s1 := by
                        have h := ih (.rForm v vars) st
                        rw [h1] at h
                        exact h
                      cases r1 with
                      | error e => exact m1
                      | ok p =>
                          cases p with
                          | pObj value =>
                              dsimp only [asObj]
                              rcases h2 : varSet s1 vars s value with ⟨r2, s2⟩
                              have m2 : MutPreserved st s2 := by
                                have h := mutPreserved_varSet s1 vars s value
                                rw [h2] at h
                                exact mutPreserved_trans m1 h
                              cases r2 with
                              | error e => exact m2
                              | ok rv =>
                                  dsimp only
                                  exact mutPreserved_trans m2 (ih _ s2)
                          | pObjs vs => exact m1
                          | pAddrs l3 => exact m1
                          | pAddr a2 => exact m1
                  | consV a2 => exact mutPreserved_refl st
                  | intV m => exact mutPreserved_refl st
                  | strV s => exact mutPreserved_refl st
                  | fltV p => exact mutPreserved_refl st
                  | tru => exact mutPreserved_refl st
                  | nilV => exact mutPreserved_refl st
                  | lispFnV i => exact mutPreserved_refl st
                  | subrFnV i => exact mutPreserved_refl st
      | rDefvar o vars =>
          simp only [runStep]
          cases hl : asList st o with
          | error e => exact mutPreserved_refl st
          | ok l =>
              cases l with
              | nil => exact mutPreserved_refl st
              | cons x rest =>
                  dsimp only
                  cases ht : toSym x with
                  | error e => exact mutPreserved_refl st
                  | ok name =>
                      dsimp only
                      cases rest with
                      | nil =>
                          dsimp only
                          rcases h2 : varSet st vars name Obj.nilV with ⟨r2, s2⟩
                          have m2 : MutPreserved st s2 := by
                            have h := mutPreserved_varSet st vars name Obj.nilV
                            rw [h2] at h
                            exact h
                          cases r2 with
                          | ok rv => exact m2
                          | error e => exact m2
                      | cons v rest2 =>
                          dsimp only
                          rcases h1 : run C n (.rForm v vars) st with ⟨r1, s1⟩
                          have m1 : MutPreserved st s1 := by
                            have h := ih (.rForm v vars) st
                            rw [h1] at h
                            exact h
                          cases r1 with
                          | error e => exact m1
                          | ok p =>
                              cases p with
                              | pObj value =>
                                  dsimp only [asObj]
                                  rcases h2 : varSet s1 vars name value with ⟨r2, s2⟩
                                  have m2 : MutPreserved st s2 := by
                                    have h := mutPreserved_varSet s1 vars name value
                                    rw [h2] at h
                                    exact mutPreserved_trans m1 h
                                  cases r2 with
                                  | ok rv => exact m2
                                  | error e => exact m2
                              | pObjs vs => exact m1
                              | pAddrs l2 => exact m1
                              | pAddr a2 => exact m1
      | rLet o parallel vars =>
          simp only [runStep]
          cases hl : asList st o with
          | error e => exact mutPreserved_refl st
          | ok l =>
              cases l with
              | nil => exact mutPreserved_refl st
              | cons bindings body =>
                  dsimp only
                  by_cases hp : parallel = true
                  · rw [if_pos hp]
                    rcases h1 : run C n (.rLetParallel bindings vars) st with ⟨r1, s1⟩
                    have m1 : MutPreserved st s1 := by
                      have h := ih (.rLetParallel bindings vars) st
                      rw [h1] at h
                      exact h
                    cases r1 with
                    | error e => exact m1
                    | ok p =>
                        cases p with
                        | pAddrs newAddrs =>
                            dsimp only [asAddrs]
                            exact mutPreserved_trans m1 (ih _ s1)
                        | pObj v => exact m1
                        | pObjs vs => exact m1
                        | pAddr a2 => exact m1
                  · rw [if_neg hp]
                    rcases h1 : run C n (.rLetSerial bindings vars) st with ⟨r1, s1⟩
                    have m1 : MutPreserved st s1 := by
                      have h := ih (.rLetSerial bindings vars) st
                      rw [h1] at h
                      exact h
                    cases r1 with
                    | error e => exact m1
                    | ok p =>
                        cases p with
                        | pAddrs vars2 =>
                            dsimp only [asAddrs]
                            exact mutPreserved_trans m1 (ih _ s1)
                        | pObj v => exact m1
                        | pObjs vs => exact m1
                        | pAddr a2 => exact m1
      | rLetSerial o vars =>
          simp only [runStep]
          cases hl : asList st o with
          | error e => exact mutPreserved_refl st
          | ok bs =>
              dsimp only
              exact ih _ st
      | rLetSerialLoop l vars =>
          simp only [runStep]
          cases l with
          | nil => exact mutPreserved_refl st
          | cons b bs =>
              dsimp only
              cases b with
              | consV a =>
                  dsimp only
                  rcases h1 : run C n (.rLetValue a vars) st with ⟨r1, s1⟩
                  have m1 : MutPreserved st s1 := by
                    have h := ih (.rLetValue a vars) st
                    rw [h1] at h
                    exact h
                  cases r1 with
                  | error e => exact m1
                  | ok p =>
                      cases p with
                      | pAddr addr =>
                          dsimp only [asAddr]
                          exact mutPreserved_trans m1 (ih _ s1)
                      | pObj v => exact m1
                      | pObjs vs => exact m1
                      | pAddrs l2 => exact m1
              | symV s =>
                  dsimp only
                  rcases ha : alloc st { car := Obj.symV s, cdr := Obj.nilV, mutFlag := true }
                    with ⟨a2, s1⟩
                  have m1 : MutPreserved st s1 := by
                    have h := mutPreserved_of_heapExt (heapExt_alloc st
                      { car := Obj.symV s, cdr := Obj.nilV, mutFlag := true })
                    rw [ha] at h
                    exact h
                  dsimp only
                  exact mutPreserved_trans m1 (ih _ s1)
              | intV m => exact mutPreserved_refl st
              | strV s => exact mutPreserved_refl st
              | fltV p => exact mutPreserved_refl st
              | tru => exact mutPreserved_refl st
              | nilV => exact mutPreserved_refl st
              | lispFnV i => exact mutPreserved_refl st
              | subrFnV i => exact mutPreserved_refl st
      | rLetParallel o vars =>
          simp only [runStep]
          cases hl : asList st o with
          | error e => exact mutPreserved_refl st
          | ok bs =>
              dsimp only
              exact ih _ st
      | rLetParallelLoop l outer acc =>
          simp only [runStep]
          cases l with
          | nil => exact mutPreserved_refl st
          | cons b bs =>
              dsimp only
              cases b with
              | consV a =>
                  dsimp only
                  rcases h1 : run C n (.rLetValue a outer) st with ⟨r1, s1⟩
                  have m1 : MutPreserved st s1 := by
                    have h := ih (.rLetValue a outer) st
                    rw [h1] at h
                    exact h
                  cases r1 with
                  | error e => exact m1
                  | ok p =>
                      cases p with
                      | pAddr addr =>
                          dsimp only [asAddr]
                          exact mutPreserved_trans m1 (ih _ s1)
                      | pObj v => exact m1
                      | pObjs vs => exact m1
                      | pAddrs l2 => exact m1
              | symV s =>
                  dsimp only
                  rcases ha : alloc st { car := Obj.symV s, cdr := Obj.nilV, mutFlag := true }
                    with ⟨a2, s1⟩
                  have m1 : MutPreserved st s1 := by
                    have h := mutPreserved_of_heapExt (heapExt_alloc st
                      { car := Obj.symV s, cdr := Obj.nilV, mutFlag := true })
                    rw [ha] at h
                    exact h
                  dsimp only
                  exact mutPreserved_trans m1 (ih _ s1)
              | intV m => exact mutPreserved_refl st
              | strV s => exact mutPreserved_refl st
              | fltV p => exact mutPreserved_refl st
              | tru => exact mutPreserved_refl st
              | nilV => exact mutPreserved_refl st
              | lispFnV i => exact mutPreserved_refl st
              | subrFnV i => exact mutPreserved_refl st
      | rLetValue a vars =>
          simp only [runStep]
          cases hc : getCell st a with
          | none => exact mutPreserved_refl st
          | some c =>
              dsimp only
              cases hl : asList st c.cdr with
              | error e => exact mutPreserved_refl st
              | ok lv =>
                  cases lv with
                  | nil =>
                      dsimp only
                      rcases hf : letBindFinish st c.car Obj.nilV with ⟨r2, s2⟩
                      have m2 : MutPreserved st s2 := by
                        have h := mutPreserved_of_heapExt
                          (letBindFinish_heapExt st c.car Obj.nilV)
                        rw [hf] at h
                        exact h
                      cases r2 with
                      | ok addr => exact m2
                      | error e => exact m2
                  | cons vf lv2 =>
                      cases lv2 with
                      | nil =>
                          dsimp only
                          rcases h1 : run C n (.rForm vf vars) st with ⟨r1, s1⟩
                          have m1 : MutPreserved st s1 := by
                            have h := ih (.rForm vf vars) st
                            rw [h1] at h
                            exact h
                          cases r1 with
                          | error e => exact m1
                          | ok p =>
                              cases p with
                              | pObj value =>
                                  dsimp only [asObj]
                                  rcases hf : letBindFinish s1 c.car value with ⟨r2, s2⟩
                                  have m2 : MutPreserved st s2 := by
                                    have h := mutPreserved_of_heapExt
                                      (letBindFinish_heapExt s1 c.car value)
                                    rw [hf] at h
                                    exact mutPreserved_trans m1 h
                                  cases r2 with
                                  | ok addr => exact m2
                                  | error e => exact m2
                              | pObjs vs => exact m1
                              | pAddrs l2 => exact m1
                              | pAddr a2 => exact m1
                      | cons y ys => exact mutPreserved_refl st
      | rList l vars =>
          simp only [runStep]
          cases l with
          | nil => exact mutPreserved_refl st
          | cons f fs =>
              dsimp only
              rcases h1 : run C n (.rForm f vars) st with ⟨r1, s1⟩
              have m1 : MutPreserved st s1 := by
                have h := ih (.rForm f vars) st
                rw [h1] at h
                exact h
              cases r1 with
              | error e => exact m1
              | ok p =>
                  cases p with
                  | pObj v =>
                      dsimp only [asObj]
                      rcases h2 : run C n (.rList fs vars) s1 with ⟨r2, s2⟩
                      have m2 : MutPreserved st s2 := by
                        have h := ih (.rList fs vars) s1
                        rw [h2] at h
                        exact mutPreserved_trans m1 h
                      cases r2 with
                      | error e => exact m2
                      | ok p2 =>
                          cases p2 with
                          | pObjs vs => exact m2
                          | pObj w => exact m2
                          | pAddrs l2 => exact m2
                          | pAddr a2 => exact m2
                  | pObjs vs => exact m1
                  | pAddrs l2 => exact m1
                  | pAddr a2 => exact m1
      | rCall name formsObj vars =>
          simp only [runStep]
          cases hr : resolveCallable st name with
          | none => exact mutPreserved_refl st
          | some cb =>
              cases cb with
              | lispFn i =>
                  dsimp only
                  cases hl : asList st formsObj with
                  | error e => exact mutPreserved_refl st
                  | ok fs =>
                      dsimp only
                      rcases h1 : run C n (.rList fs vars) st with ⟨r1, s1⟩
                      have m1 : MutPreserved st s1 := by
                        have h := ih (.rList fs vars) st
                        rw [h1] at h
                        exact h
                      cases r1 with
                      | error e => exact m1
                      | ok p =>
                          cases p with
                          | pObjs args =>
                              dsimp only [asObjs]
                              rcases h2 : C.lispCall i args s1 with ⟨r2, s2⟩
                              have m2 : MutPreserved st s2 := by
                                have h := hC1 i args s1
                                rw [h2] at h
                                exact mutPreserved_trans m1 h
                              cases r2 with
                              | ok v => exact m2
                              | error e => exact m2
                          | pObj v => exact m1
                          | pAddrs l2 => exact m1
                          | pAddr a2 => exact m1
              | subrFn i =>
                  dsimp only
                  cases hl : asList st formsObj with
                  | error e => exact mutPreserved_refl st
                  | ok fs =>
                      dsimp only
                      rcases h1 : run C n (.rList fs vars) st with ⟨r1, s1⟩
                      have m1 : MutPreserved st s1 := by
                        have h := ih (.rList fs vars) st
                        rw [h1] at h
                        exact h
                      cases r1 with
                      | error e => exact m1
                      | ok p =>
                          cases p with
                          | pObjs args =>
                              dsimp only [asObjs]
                              rcases h2 : C.subrCall i args s1 with ⟨r2, s2⟩
                              have m2 : MutPreserved st s2 := by
                                have h := hC2 i args s1
                                rw [h2] at h
                                exact mutPreserved_trans m1 h
                              cases r2 with
                              | ok v => exact m2
                              | error e => exact m2
                          | pObj v => exact m1
                          | pAddrs l2 => exact m1
                          | pAddr a2 => exact m1
              | macroFn i =>
                  dsimp only
                  cases hl : asList st formsObj with
                  | error e => exact mutPreserved_refl st
                  | ok margs =>
                      dsimp only
                      rcases h2 : C.macroCall i margs st with ⟨r2, s2⟩
                      have m2 : MutPreserved st s2 := by
                        have h := hC3 i margs st
                        rw [h2] at h
                        exact h
                      cases r2 with
                      | error e => exact m2
                      | ok value =>
                          dsimp only
                          exact mutPreserved_trans m2 (ih _ s2)
              | uncompiled a =>
                  dsimp only
                  cases hcell : getCell st a with
                  | none => exact mutPreserved_refl st
                  | some c =>
                      dsimp only
                      by_cases hcl : (c.car == Obj.symV "closure") = true
                      · rw [if_pos hcl]
                        cases hl : asList st formsObj with
                        | error e => exact mutPreserved_refl st
                        | ok fs =>
                            dsimp only
                            rcases h1 : run C n (.rList fs vars) st with ⟨r1, s1⟩
                            have m1 : MutPreserved st s1 := by
                              have h := ih (.rList fs vars) st
                              rw [h1] at h
                              exact h
                            cases r1 with
                            | error e => exact m1
                            | ok p =>
                                cases p with
                                | pObjs args =>
                                    dsimp only [asObjs]
                                    exact mutPreserved_trans m1 (ih _ s1)
                                | pObj v => exact m1
                                | pAddrs l2 => exact m1
                                | pAddr a2 => exact m1
                      · rw [if_neg hcl]
                        exact mutPreserved_refl st
      | rClosure a args =>
          simp only [runStep]
          cases hcell : getCell st a with
          | none => exact mutPreserved_refl st
          | some c =>
              dsimp only
              by_cases hcl : (c.car == Obj.symV "closure") = true
              · rw [if_pos hcl]
                cases hl : asList st c.cdr with
                | error e => exact mutPreserved_refl st
                | ok forms =>
                    dsimp only
                    rcases hb : bindVariables st forms args with ⟨r1, s1⟩
                    have m1 : MutPreserved st s1 := by
                      have h := mutPreserved_of_heapExt
                        (bindVariables_heapExt st forms args)
                      rw [hb] at h
                      exact h
                    cases r1 with
                    | error e => exact m1
                    | ok p =>
                        rcases p with ⟨vars2, body⟩
                        dsimp only
                        exact mutPreserved_trans m1 (ih _ s1)
              · rw [if_neg hcl]
                exact mutPreserved_refl st

/-- C4: the two closures created inside the same live let share the
mutable binding cell of x: after calling the first closure, whose body sets
x to 42, the second closure reads 42. -/
theorem C4_closure_shared_cell : c4run = .ok (.intV 42) := by
  decide

/-- C5: a data word built from a shared reference refuses a mutable view;
so does any word after make_read_only; a word built from a mutable
reference yields the original referent (whose address fits the 56-bit data
as the source requires). -/
theorem C5_mutability_bit :
    (∀ ptr : Nat, dataInnerMut (dataFromRef ptr) = none) ∧
    (∀ d : Nat, dataInnerMut (makeReadOnly d) = none) ∧
    (∀ ptr : Nat, ptr < 2 ^ 54 → dataInnerMut (dataFromMutRef ptr) = some (ptr : Int)) :=
  ⟨dataFromRef_innerMut_none, makeReadOnly_innerMut_none,
   fun ptr h => dataFromMutRef_innerMut ptr h⟩

/-- Witness for C5_mutability_bit at concrete inputs. -/
theorem C5_mutability_witness :
    dataInnerMut (dataFromRef 12) = none ∧
    dataInnerMut (makeReadOnly 34) = none ∧
    dataInnerMut (dataFromMutRef 12) = some (12 : Int) :=
  ⟨C5_mutability_bit.1 12, C5_mutability_bit.2.1 34,
   C5_mutability_bit.2.2 12 (by norm_num)⟩

/-- C6: when the head resolves to a macro, eval_call hands the transform
the unevaluated argument forms and evaluates the single returned form in
place of the call. -/
theorem C6_macro_unevaluated :
    ∀ (C : Collab) (n : Nat) (name : String) (i : Nat) (formsObj : Obj)
      (vars : List Nat) (st : GState),
      resolveCallable st name = some (.macroFn i) →
      evalCall C (n + 1) name formsObj vars st = macroCallSpec C n i formsObj vars st := by
  intro C n name i formsObj vars st h
  cases hl : asList st formsObj with
  | error e =>
      simp only [evalCall, macroCallSpec, run_succ, runStep, h, hl, asObj]
  | ok margs =>
      rcases hm : C.macroCall i margs st with ⟨er, st2⟩
      cases er with
      | error e =>
          simp only [evalCall, macroCallSpec, run_succ, runStep, h, hl, hm, asObj]
      | ok value =>
          simp only [evalCall, macroCallSpec, run_succ, runStep, h, hl, hm,
            asObj, evalForm]

/-- Witness for C6 at a concrete macro: the argument list holds the
unbound symbol nope, yet the call succeeds with the transform result,
because the argument was never evaluated. -/
theorem C6_macro_witness :
    evalCall c6collab 9 "m" (.consV 0) [] c6st =
      macroCallSpec c6collab 8 0 (.consV 0) [] c6st ∧
    (evalCall c6collab 9 "m" (.consV 0) [] c6st).1 = .ok (.intV 7) :=
  ⟨C6_macro_unevaluated c6collab 8 "m" 0 (.consV 0) [] c6st rfl, rfl⟩

/-- C7: a keyword symbol evaluates to itself whatever the environment; any
other symbol takes the innermost lexical binding, else the global binding,
and var_ref fails exactly when both are absent, with the void-variable
error for that symbol. -/
theorem C7_var_ref :
    (∀ (st : GState) (vars : List Nat) (s : String), isKeywordName s = true →
        varRef st vars s = .ok (.symV s)) ∧
    (∀ (st : GState) (vars : List Nat) (s : String), ¬ isKeywordName s = true →
        varRef st vars s =
          (match lexLookup st vars s with
           | some v => .ok v
           | none =>
               match globalLookup st s with
               | some v => .ok v
               | none => .error (.voidVariable s))) ∧
    (∀ (st : GState) (vars : List Nat) (s : String) (e : Err),
        varRef st vars s = .error e ↔
          (¬ isKeywordName s = true ∧ lexLookup st vars s = none ∧
            globalLookup st s = none ∧ e = .voidVariable s)) := by
  refine ⟨?_, ?_, ?_⟩
  · intro st vars s h
    unfold varRef
    rw [if_pos h]
  · intro st vars s h
    unfold varRef
    rw [if_neg h]
  · intro st vars s e
    unfold varRef
    by_cases h : isKeywordName s = true
    · rw [if_pos h]
      constructor
      · intro hc; cases hc
      · rintro ⟨hn, -⟩; exact absurd h hn
    · rw [if_neg h]
      cases hl : lexLookup st vars s with
      | some v =>
          constructor
          · intro hc; cases hc
          · rintro ⟨-, hln, -⟩; cases hln
      | none =>
          cases hg : globalLookup st s with
          | some v =>
              constructor
              · intro hc; cases hc
              · rintro ⟨-, -, hgn, -⟩; cases hgn
          | none =>
              constructor
              · intro hc
                cases hc
                exact ⟨h, rfl, rfl, rfl⟩
              · rintro ⟨-, -, -, rfl⟩; rfl

/-- Witness for C7 at concrete inputs: a keyword, and an unbound symbol in
the empty environment. -/
theorem C7_var_ref_witness :
    varRef emptyState [] ":kw" = .ok (.symV ":kw") ∧
    (varRef emptyState [] "nope" = .error (.voidVariable "nope") ↔
      (¬ (isKeywordName "nope" = true) ∧ lexLookup emptyState [] "nope" = none ∧
        globalLookup emptyState "nope" = none ∧
        Err.voidVariable "nope" = .voidVariable "nope")) :=
  ⟨C7_var_ref.1 emptyState [] ":kw" (by decide),
   C7_var_ref.2.2 emptyState [] "nope" (.voidVariable "nope")⟩

/-- C8: errors propagate without rolling back earlier effects: in
(setq a N b kaboom) the void-variable error for kaboom is returned while
the binding of a to N persists in the globals; a let whose body errors
likewise keeps the global assignment its body already performed. -/
theorem C8_no_rollback :
    (∀ n : Int,
      (evalForm noCollab 50 (c8a n).1 [] (c8a n).2).1 =
        .error (.voidVariable "kaboom") ∧
      globalLookup (evalForm noCollab 50 (c8a n).1 [] (c8a n).2).2 "a" =
        some (.intV n)) ∧
    (∀ n : Int,
      (evalForm noCollab 50 (c8b n).1 [] (c8b n).2).1 =
        .error (.voidVariable "kaboom") ∧
      globalLookup (evalForm noCollab 50 (c8b n).1 [] (c8b n).2).2 "g" =
        some (.intV 7)) := by
  constructor
  · intro n
    constructor
    · rfl
    · rfl
  · intro n
    constructor
    · rfl
    · rfl

/-- C10: defconst is dispatched to the very same defvar implementation, so
the two forms agree on every argument list, environment and heap; and with
no argument at all defvar fails with the arity error expecting 1, got 0. -/
theorem C10_defconst_is_defvar :
    (∀ (C : Collab) (n : Nat) (a b : Nat) (f : Obj) (m1 m2 : Bool)
       (vars : List Nat) (st : GState),
      getCell st a = some { car := .symV "defconst", cdr := f, mutFlag := m1 } →
      getCell st b = some { car := .symV "defvar", cdr := f, mutFlag := m2 } →
      evalSexp C (n + 1) a vars st = evalSexp C (n + 1) b vars st) ∧
    (∀ (C : Collab) (n : Nat) (vars : List Nat) (st : GState),
      defvarF C (n + 1) .nilV vars st = (.error (.argCount 1 0), st)) := by
  constructor
  · intro C n a b f m1 m2 vars st h1 h2
    simp only [evalSexp, run_succ, runStep, h1, h2]
    rfl
  · intro C n vars st
    rfl

/-- Witness for C10 on a concrete heap holding (defconst) and (defvar). -/
theorem C10_defconst_witness :
    evalSexp noCollab 5 0 [] c10st = evalSexp noCollab 5 1 [] c10st ∧
    defvarF noCollab 5 .nilV [] emptyState = (.error (.argCount 1 0), emptyState) :=
  ⟨C10_defconst_is_defvar.1 noCollab 4 0 1 .nilV true true [] c10st rfl rfl,
   C10_defconst_is_defvar.2 noCollab 4 [] emptyState⟩

/-- C9: every binding cons cell the evaluator pushes onto the lexical
stack is freshly allocated as a mutable cell, so the set_cdr a setq
performs on a lexically found evaluator-created binding can never hit the
"env should be mutable" panic.  Conjunct 1: the binding cell
let_bind_value allocates (the let and let* path) is fresh and mutable and
holds the bound value.  Conjunct 2: every cell closure argument binding
(bind_variables, hence bind_args) adds beyond the incoming heap is
mutable.  Conjunct 3: evaluation never changes the mutability flag of an
already-present cell (given that the external collaborators preserve
flags too), so those binding cells are still mutable whenever a later
setq reaches them.  Conjunct 4: var_set through a lexically found mutable
cell always succeeds with the assigned value instead of the panic. -/
theorem C9_bindings_mutable (C : Collab) (hC : CollabMut C) :
    (∀ st nameObj v addr st2,
        letBindFinish st nameObj v = (.ok addr, st2) →
        st.heap.length = addr ∧
          ∃ c, st2.heap[addr]? = some c ∧ c.mutFlag = true ∧ c.cdr = v) ∧
    (∀ st forms args a c,
        ((bindVariables st forms args).2).heap[a]? = some c →
        st.heap.length ≤ a → c.mutFlag = true) ∧
    (∀ n req st, MutPreserved st (run C n req st).2) ∧
    (∀ st vars s v a,
        lexFindAddr st vars s = some a →
        (∃ c, st.heap[a]? = some c ∧ c.mutFlag = true) →
        (varSet st vars s v).1 = .ok v) := by
  refine ⟨?_, ?_, ?_, ?_⟩
  · intro st nameObj v addr st2 h
    exact letBindFinish_fresh st nameObj v addr st2 h
  · intro st forms args a c hc ha
    exact extMut_fresh (bindVariables_extMut st forms args) a c hc ha
  · exact run_mutPreserved C hC
  · intro st vars s v a hf hm
    exact varSet_mutable_ok st vars s v a hf hm

/-- C9 witness: with no external collaborators (which trivially preserve
flags), a setq assignment through a heap holding the single mutable
binding cell (x . 1) on the lexical stack succeeds with the assigned
value. -/
theorem C9_bindings_witness :
    (varSet
        { heap := [{ car := Obj.symV "x", cdr := Obj.intV 1, mutFlag := true }],
          globals := [], funcs := [] }
        [0] "x" (Obj.intV 5)).1 = .ok (Obj.intV 5) :=
  (C9_bindings_mutable noCollab
      ⟨fun _ _ st => mutPreserved_refl st, fun _ _ st => mutPreserved_refl st,
        fun _ _ st => mutPreserved_refl st⟩).2.2.2
    { heap := [{ car := Obj.symV "x", cdr := Obj.intV 1, mutFlag := true }],
      globals := [], funcs := [] }
    [0] "x" (Obj.intV 5) 0 (by decide)
    ⟨{ car := Obj.symV "x", cdr := Obj.intV 1, mutFlag := true }, rfl, rfl⟩

end Rune
